import Mathlib

/-!
# webview.go: call registry, function binder, dispatch queue and event bus

A shallow embedding of `webview.go`.  The package-level variables `index`,
`dispatch`, `bindings` and `messageHandlers` become explicit state; the
standard-library services the file calls (`encoding/json`, `reflect`) are
parameters of the embedding, collected in `JsonEnv`.  The strings `SendMessage`
receives are Go strings, lists of bytes that need not be valid UTF-8.
-/

namespace Webview

/-! ## Go maps -/

/-- Number of values of the Go type `uintptr` (64-bit platforms). -/
def uintptrSize : Nat := 2 ^ 64

/-- A Go map as an association list holding at most one pair per key. -/
abbrev GoMap (K V : Type) := List (K × V)

namespace GoMap

variable {K V : Type} [DecidableEq K]

/-- The value stored under `k`, if the key is present. -/
def find (m : GoMap K V) (k : K) : Option V :=
  match m with
  | [] => none
  | (k', v) :: rest => if k' = k then some v else find rest k

/-- Go `delete(m, k)`. -/
def erase (m : GoMap K V) (k : K) : GoMap K V :=
  m.filter (fun e => decide (e.1 ≠ k))

/-- Go `m[k] = v`. -/
def assign (m : GoMap K V) (k : K) (v : V) : GoMap K V :=
  (k, v) :: erase m k

/-- Go `m[k]` for a map whose values are func values: a missing key reads as
the zero value `nil`, which is `none` here. -/
def funcAt {F : Type} (m : GoMap K (Option F)) (k : K) : Option F :=
  match find m k with
  | some f => f
  | none => none

end GoMap

/-! ## Call registry: `index`, `dispatch`, `bindings` -/

/-- The package-level variables guarded by the mutex `m`.  `W` is the type of
non-nil work items (`func()`), `B` the type of non-nil binding closures. -/
structure Registry (W B : Type) where
  index : Nat
  dispatch : GoMap Nat (Option W)
  bindings : GoMap Nat (Option B)

/-- State at package initialisation. -/
def Registry.init (W B : Type) : Registry W B :=
  { index := 0, dispatch := [], bindings := [] }

/-- The loop `for ; tbl[index] != nil; index++ {}` on a `uintptr` cursor.
`none` when the fuel is used up. -/
def probe (occupied : Nat → Bool) : Nat → Nat → Option Nat
  | 0, _ => none
  | fuel + 1, i =>
    if occupied i then probe occupied fuel ((i + 1) % uintptrSize) else some i

/-- `(*webview).Dispatch`: returns the new registry and the token handed to
`CgoWebViewDispatch`.  The probe gets one unit of fuel more than the table has
pairs; `none` means that the Go loop does not end. -/
def Dispatch {W B : Type} (r : Registry W B) (f : Option W) :
    Option (Registry W B × Nat) :=
  match probe (fun i => (GoMap.funcAt r.dispatch i).isSome)
      (r.dispatch.length + 1) r.index with
  | none => none
  | some i => some ({ r with index := i, dispatch := GoMap.assign r.dispatch i f }, i)

/-- The locked section of `(*webview).Bind`: probe `bindings` from the shared
cursor and store the closure; returns the token handed to `CgoWebViewBind`. -/
def bindAlloc {W B : Type} (r : Registry W B) (b : B) :
    Option (Registry W B × Nat) :=
  match probe (fun i => (GoMap.funcAt r.bindings i).isSome)
      (r.bindings.length + 1) r.index with
  | none => none
  | some i =>
    some ({ r with index := i, bindings := GoMap.assign r.bindings i (some b) }, i)

/-- `_webviewDispatchGoCallback`: look the entry up, delete it, and return the
func value that is then called (`none` is a nil func: the call panics). -/
def webviewDispatchGoCallback {W B : Type} (r : Registry W B) (token : Nat) :
    Registry W B × Option W :=
  ({ r with dispatch := GoMap.erase r.dispatch token }, GoMap.funcAt r.dispatch token)

/-- One registry operation. -/
inductive Op (W B : Type) where
  | dispatch (f : Option W)
  | bind (b : B)
  | callback (token : Nat)

/-- What an allocation saw: the token it returned and whether that token was
live in each table just before the entry was stored. -/
structure AllocRecord where
  token : Nat
  forBinding : Bool
  liveDispatch : Bool
  liveBinding : Bool
  deriving DecidableEq, Repr

/-- Run one operation, recording an allocation if one happened.  For a callback
only the registry it leaves matters here (in Go the call of a nil entry panics
after the delete). -/
def stepOp {W B : Type} (r : Registry W B) : Op W B → Option (Registry W B × List AllocRecord)
  | .dispatch f =>
    match Dispatch r f with
    | none => none
    | some (r', t) =>
      some (r', [{ token := t, forBinding := false,
                   liveDispatch := (GoMap.funcAt r.dispatch t).isSome,
                   liveBinding := (GoMap.funcAt r.bindings t).isSome }])
  | .bind b =>
    match bindAlloc r b with
    | none => none
    | some (r', t) =>
      some (r', [{ token := t, forBinding := true,
                   liveDispatch := (GoMap.funcAt r.dispatch t).isSome,
                   liveBinding := (GoMap.funcAt r.bindings t).isSome }])
  | .callback t => some ((webviewDispatchGoCallback r t).1, [])

/-- Run a sequence of operations, collecting the allocation records in order. -/
def runOps {W B : Type} (r : Registry W B) : List (Op W B) → Option (Registry W B × List AllocRecord)
  | [] => some (r, [])
  | op :: ops =>
    match stepOp r op with
    | none => none
    | some (r', recs) =>
      match runOps r' ops with
      | none => none
      | some (r'', recs') => some (r'', recs ++ recs')

/-! ## Function binder: `Bind`, the binding closure, `_webviewBindingGoCallback` -/

/-- The services of `encoding/json` and `reflect` that `webview.go` calls.
`Req` is the request text, `Raw` a `json.RawMessage`, `Ty` a `reflect.Type`,
`Val` a Go value held in an interface.  An error value is represented by the
text its `Error` method returns, the only thing the callback reads from it. -/
structure JsonEnv (Req Raw Ty Val : Type) where
  /-- `json.Unmarshal([]byte(req), &raw)` for `raw []json.RawMessage`. -/
  unmarshalArray : Req → Except String (List Raw)
  /-- `json.Unmarshal(raw, reflect.New(ty).Interface())`, then `Elem()`. -/
  unmarshal : Raw → Ty → Except String Val
  /-- `json.Marshal(v)` for an interface value `v`; `none` is the nil interface. -/
  marshal : Option Val → Except String String
  /-- `reflect.Type.Elem`; `none` when the call panics. -/
  elem : Ty → Option Ty
  /-- `t.Implements(errorType)`. -/
  implementsError : Ty → Bool
  /-- What `Error()` returns on a value whose type implements `error`. -/
  errorText : Val → String
  /-- A Go string held in an interface. -/
  ofString : String → Val

/-- The part of a `reflect.Type` of kind Func that the binder reads. -/
structure FuncType (Ty : Type) where
  ins : List Ty
  isVariadic : Bool
  outs : List Ty

/-- `Type.NumIn()`. -/
def FuncType.NumIn {Ty : Type} (ft : FuncType Ty) : Int := ft.ins.length

/-- `Type.NumOut()`. -/
def FuncType.NumOut {Ty : Type} (ft : FuncType Ty) : Int := ft.outs.length

/-- `Type.In(i)`; `none` when the index is out of range (the call panics). -/
def FuncType.In {Ty : Type} (ft : FuncType Ty) (i : Int) : Option Ty :=
  if i < 0 then none else ft.ins.get? i.toNat

/-- One element of the slice returned by `reflect.Value.Call`: its `Type()` and
its `Interface()` (`none` is the nil interface). -/
structure RVal (Ty Val : Type) where
  ty : Ty
  iface : Option Val

/-- A host function `v` with side effects on a host state `σ`.  `body` takes
the values of the fixed parameters and the contents of the variadic slot. -/
structure HostFunc (Ty Val σ : Type) where
  type : FuncType Ty
  body : List Val → List Val → σ → List (RVal Ty Val) × σ

/-- `reflect.Value.Call(args)`: for a variadic function `Call` builds the
variadic slice itself from the arguments after the fixed ones. -/
def HostFunc.Call {Ty Val σ : Type} (v : HostFunc Ty Val σ) (args : List Val) (s : σ) :
    List (RVal Ty Val) × σ :=
  if v.type.isVariadic then
    v.body (args.take (v.type.ins.length - 1)) (args.drop (v.type.ins.length - 1)) s
  else v.body args [] s

/-- The arity test of the binding closure on `len(raw) = n`. -/
def arityMismatch {Ty : Type} (ft : FuncType Ty) (n : Nat) : Bool :=
  (ft.isVariadic && decide ((n : Int) < ft.NumIn - 1)) ||
    (!ft.isVariadic && decide ((n : Int) ≠ ft.NumIn))

/-- The type argument `i` is decoded into. -/
def argType {Req Raw Ty Val : Type} (env : JsonEnv Req Raw Ty Val) (ft : FuncType Ty)
    (i : Nat) : Option Ty :=
  if ft.isVariadic && decide ((i : Int) ≥ ft.NumIn - 1) then
    (ft.In (ft.NumIn - 1)).bind env.elem
  else ft.In i

/-- The loop `for i := range raw` of the binding closure, from index `i` on.
`none` is a panic, `some (.error e)` the early `return nil, err`. -/
def decodeArgs {Req Raw Ty Val : Type} (env : JsonEnv Req Raw Ty Val) (ft : FuncType Ty) :
    Nat → List Raw → Option (Except String (List Val))
  | _, [] => some (.ok [])
  | i, raw :: rest =>
    match argType env ft i with
    | none => none
    | some ty =>
      match env.unmarshal raw ty with
      | .error e => some (.error e)
      | .ok a =>
        match decodeArgs env ft (i + 1) rest with
        | none => none
        | some (.error e) => some (.error e)
        | some (.ok args) => some (.ok (a :: args))

/-- The `switch len(res)` of the binding closure: the pair `(interface{}, error)`
it returns. -/
def bindingResult {Req Raw Ty Val : Type} (env : JsonEnv Req Raw Ty Val) :
    List (RVal Ty Val) → Option Val × Option String
  | [] => (none, none)
  | [r0] =>
    if env.implementsError r0.ty then
      match r0.iface with
      | some e => (none, some (env.errorText e))
      | none => (none, none)
    else (r0.iface, none)
  | [r0, r1] =>
    if !env.implementsError r1.ty then (none, some "second return value must be an error")
    else
      match r1.iface with
      | none => (r0.iface, none)
      | some e => (r0.iface, some (env.errorText e))
  | _ => (none, some "unexpected number of return values")

/-- The type of the closures stored in `bindings`: from the call id, the
request and the host state to the returned `(interface{}, error)` and the new
host state; `none` is a panic. -/
abbrev BindingFn (Req Val σ : Type) :=
  String → Req → σ → Option ((Option Val × Option String) × σ)

/-- The binding closure from the decode loop on: decode every argument, call
the function, and shape the results. -/
def decodeAndCall {Req Raw Ty Val σ : Type} (env : JsonEnv Req Raw Ty Val)
    (v : HostFunc Ty Val σ) (raw : List Raw) (s : σ) :
    Option ((Option Val × Option String) × σ) :=
  match decodeArgs env v.type 0 raw with
  | none => none
  | some (.error e) => some ((none, some e), s)
  | some (.ok args) => some (bindingResult env (v.Call args s).1, (v.Call args s).2)

/-- The closure `binding` built by `(*webview).Bind` for the function `v`. -/
def binding {Req Raw Ty Val σ : Type} (env : JsonEnv Req Raw Ty Val)
    (v : HostFunc Ty Val σ) : BindingFn Req Val σ :=
  fun _id req s =>
    match env.unmarshalArray req with
    | .error e => some ((none, some e), s)
    | .ok raw =>
      if arityMismatch v.type raw.length then
        some ((none, some "function arguments mismatch"), s)
      else decodeAndCall env v raw s

/-- The arguments of `C.webview_return`. -/
structure Envelope where
  id : String
  status : Int
  result : String
  deriving DecidableEq, Repr

/-- The local `jsString` of `_webviewBindingGoCallback`:
`b, _ := json.Marshal(v); return string(b)`. -/
def jsString {Req Raw Ty Val : Type} (env : JsonEnv Req Raw Ty Val) (v : String) : String :=
  match env.marshal (some (env.ofString v)) with
  | .ok b => b
  | .error _ => ""

/-- The part of `_webviewBindingGoCallback` after the closure has returned. -/
def envelopeOf {Req Raw Ty Val : Type} (env : JsonEnv Req Raw Ty Val) (id : String)
    (ret : Option Val × Option String) : Envelope :=
  match ret.2 with
  | some e => { id := id, status := -1, result := jsString env e }
  | none =>
    match env.marshal ret.1 with
    | .error e => { id := id, status := -1, result := jsString env e }
    | .ok b => { id := id, status := 0, result := b }

/-- `_webviewBindingGoCallback`: the envelope passed to `webview_return` and the
host state afterwards; `none` is a panic (nil closure, or a panic inside it). -/
def webviewBindingGoCallback {W Req Raw Ty Val σ : Type} (env : JsonEnv Req Raw Ty Val)
    (r : Registry W (BindingFn Req Val σ)) (id : String) (req : Req) (index : Nat) (s : σ) :
    Option (Envelope × σ) :=
  match GoMap.funcAt r.bindings index with
  | none => none
  | some f =>
    match f id req s with
    | none => none
    | some (ret, s') => some (envelopeOf env id ret, s')

/-- The argument `f interface{}` of `Bind`, by `reflect.ValueOf(f).Kind()`. -/
inductive BindArg (Ty Val σ : Type) where
  | nonFunc
  | func (v : HostFunc Ty Val σ)

/-- What `Bind` leaves behind: the returned error, the registry, and the call
`CgoWebViewBind(w, name, index)` if it was made. -/
structure BindOutcome (W B : Type) where
  err : Option String
  registry : Registry W B
  bound : Option (String × Nat)

/-- `(*webview).Bind`; `none` when the probe loop does not end. -/
def Bind {W Req Raw Ty Val σ : Type} (env : JsonEnv Req Raw Ty Val)
    (r : Registry W (BindingFn Req Val σ)) (name : String) (f : BindArg Ty Val σ) :
    Option (BindOutcome W (BindingFn Req Val σ)) :=
  match f with
  | .nonFunc => some { err := some "only functions can be bound", registry := r, bound := none }
  | .func v =>
    if v.type.NumOut > 2 then
      some { err := some "function may only return a value or a value+error",
             registry := r, bound := none }
    else
      match bindAlloc r (binding env v) with
      | none => none
      | some (r', t) => some { err := none, registry := r', bound := some (name, t) }

/-! ## Event bus -/

/-- A non-nil message handler. -/
abbrev Handler := String → String → String

/-- `(*webview).AddMessageHandler` on the table `messageHandlers`. -/
def AddMessageHandler (handlers : GoMap String (Option Handler)) (eventName : String)
    (f : Option Handler) : GoMap String (Option Handler) :=
  GoMap.assign handlers eventName f

/-- The func literal bound as `_SendEvent` by `InitMessageHandler`. -/
def sendEvent (handlers : GoMap String (Option Handler)) (eventName eventData : String) :
    String :=
  match GoMap.funcAt handlers eventName with
  | some f => f eventName eventData
  | none => ""

/-- All registrations of a run, oldest first, applied to the empty table. -/
def registerAll (regs : List (String × Option Handler)) : GoMap String (Option Handler) :=
  regs.foldl (fun tbl reg => AddMessageHandler tbl reg.1 reg.2) []

/-- The handler most recently registered for `eventName`, read off the list of
registrations (oldest first) without going through the table. -/
def specLastRegistered (regs : List (String × Option Handler)) (eventName : String) :
    Option (Option Handler) :=
  (regs.reverse.find? (fun reg => decide (reg.1 = eventName))).map Prod.snd

/-! ## Go strings and JSON string literals -/

/-- A Go string: its bytes, each a value below 256. -/
abbrev GoString := List Nat

/-- The bytes of a Go string literal whose characters are all ASCII. -/
def asciiBytes (s : String) : GoString := s.data.map Char.toNat

/-- `utf8.RuneError`, U+FFFD. -/
def runeError : Nat := 65533

/-- Modelled from the spec: the length of the UTF-8 sequence a first byte
announces (`utf8`, Go standard library, not part of `webview.go`); 0 for a
byte that cannot start a multi-byte sequence. -/
def seqLen (b0 : Nat) : Nat :=
  if 194 ≤ b0 ∧ b0 ≤ 223 then 2
  else if 224 ≤ b0 ∧ b0 ≤ 239 then 3
  else if 240 ≤ b0 ∧ b0 ≤ 244 then 4
  else 0

/-- Modelled from the spec: the least second byte accepted after `b0`
(`utf8`, Go standard library). -/
def secondLo (b0 : Nat) : Nat :=
  if b0 = 224 then 160 else if b0 = 240 then 144 else 128

/-- Modelled from the spec: the greatest second byte accepted after `b0`
(`utf8`, Go standard library). -/
def secondHi (b0 : Nat) : Nat :=
  if b0 = 237 then 159 else if b0 = 244 then 143 else 191

/-- Modelled from the spec: `utf8.DecodeRuneInString` (Go standard library, not
part of `webview.go`): the rune at the head of the bytes and its width;
`(RuneError, 1)` when the head is not a valid UTF-8 sequence, `(RuneError, 0)`
on the empty string. -/
def decodeRune : GoString → Nat × Nat
  | [] => (runeError, 0)
  | b0 :: rest =>
    if b0 < 128 then (b0, 1)
    else if seqLen b0 = 2 then
      match rest with
      | b1 :: _ =>
        if secondLo b0 ≤ b1 ∧ b1 ≤ secondHi b0 then (b0 % 32 * 64 + b1 % 64, 2)
        else (runeError, 1)
      | _ => (runeError, 1)
    else if seqLen b0 = 3 then
      match rest with
      | b1 :: b2 :: _ =>
        if secondLo b0 ≤ b1 ∧ b1 ≤ secondHi b0 ∧ 128 ≤ b2 ∧ b2 ≤ 191 then
          (b0 % 16 * 4096 + b1 % 64 * 64 + b2 % 64, 3)
        else (runeError, 1)
      | _ => (runeError, 1)
    else if seqLen b0 = 4 then
      match rest with
      | b1 :: b2 :: b3 :: _ =>
        if secondLo b0 ≤ b1 ∧ b1 ≤ secondHi b0 ∧ 128 ≤ b2 ∧ b2 ≤ 191 ∧
            128 ≤ b3 ∧ b3 ≤ 191 then
          (b0 % 8 * 262144 + b1 % 64 * 4096 + b2 % 64 * 64 + b3 % 64, 4)
        else (runeError, 1)
      | _ => (runeError, 1)
    else (runeError, 1)

/-- Modelled from the spec: the lower-case hexadecimal digit `json.Marshal`
writes for a value below 16, as a byte. -/
def hexByte (n : Nat) : Nat := if n < 10 then 48 + n else 87 + n

/-- Modelled from the spec: how `json.Marshal` (Go standard library, not part
of `webview.go`) writes one ASCII byte of a string: a byte from 0x20 on other
than the double quote (34), the backslash (92), `<`, `>` and `&` is written as
it is; the double quote and the backslash get a backslash in front; line
feed, carriage return and tab become `\n`, `\r`, `\t`; every other byte
becomes `\u00` and two hexadecimal digits. -/
def escapeAscii (b : Nat) : GoString :=
  if 32 ≤ b ∧ b ≠ 34 ∧ b ≠ 92 ∧ b ≠ 60 ∧ b ≠ 62 ∧ b ≠ 38 then [b]
  else if b = 92 ∨ b = 34 then [92, b]
  else if b = 10 then [92, 110]
  else if b = 13 then [92, 114]
  else if b = 9 then [92, 116]
  else [92, 117, 48, 48, hexByte (b / 16), hexByte (b % 16)]

/-- Modelled from the spec: the loop of `json.Marshal` over the bytes of a
string (Go standard library, not part of `webview.go`), "so that they are
always valid script string literals regardless of embedded quoting": an ASCII
byte is written by `escapeAscii`; a byte that does not start a valid UTF-8
sequence is written as the escape of U+FFFD (backslash, `ufffd`) and the loop
moves on by one byte; U+2028 and U+2029 are written as their escapes
(backslash, `u2028` or `u2029`); every other valid sequence is copied.  The
fuel is the number of bytes left, which is enough. -/
def appendStringLoop : Nat → GoString → GoString
  | 0, _ => []
  | _ + 1, [] => []
  | fuel + 1, b :: rest =>
    if b < 128 then escapeAscii b ++ appendStringLoop fuel rest
    else if (decodeRune (b :: rest)).1 = runeError ∧ (decodeRune (b :: rest)).2 = 1 then
      [92, 117, 102, 102, 102, 100] ++ appendStringLoop fuel rest
    else if (decodeRune (b :: rest)).1 = 8232 ∨ (decodeRune (b :: rest)).1 = 8233 then
      [92, 117, 50, 48, 50, hexByte ((decodeRune (b :: rest)).1 % 16)] ++
        appendStringLoop fuel ((b :: rest).drop (decodeRune (b :: rest)).2)
    else
      (b :: rest).take (decodeRune (b :: rest)).2 ++
        appendStringLoop fuel ((b :: rest).drop (decodeRune (b :: rest)).2)

/-- Modelled from the spec: `json.Marshal` applied to a Go string (Go standard
library, not part of `webview.go`): the escaped bytes between two double
quotes. -/
def appendString (s : GoString) : GoString :=
  34 :: (appendStringLoop s.length s ++ [34])

/-- `(*webview).SendMessage`: the script handed to `Eval`.  `jsonMarshal` is
`json.Marshal` on a string; its error is dropped as in the source. -/
def SendMessage (jsonMarshal : GoString → Except String GoString)
    (eventName eventData : GoString) : GoString :=
  let jsonEventName := match jsonMarshal eventName with
    | .ok b => b
    | .error _ => []
  let jsonEventData := match jsonMarshal eventData with
    | .ok b => b
    | .error _ => []
  asciiBytes "\n\twindow.webViewEventListeners.forEach(eventListener => \x7b\n\t\teventListener("
    ++ jsonEventName ++ asciiBytes ", " ++ jsonEventData ++ asciiBytes ");\n\t\x7d)\n\t"

/-- Value of a hexadecimal digit byte (RFC 8259 grammar). -/
def hexVal (b : Nat) : Option Nat :=
  if 48 ≤ b ∧ b ≤ 57 then some (b - 48)
  else if 97 ≤ b ∧ b ≤ 102 then some (b - 87)
  else if 65 ≤ b ∧ b ≤ 70 then some (b - 55)
  else none

/-- The byte a one-letter escape of RFC 8259 stands for: the doubled quote,
backslash and slash, and `b`, `f`, `n`, `r`, `t`. -/
def simpleEscape (e : Nat) : Option Nat :=
  if e = 34 then some 34
  else if e = 92 then some 92
  else if e = 47 then some 47
  else if e = 98 then some 8
  else if e = 102 then some 12
  else if e = 110 then some 10
  else if e = 114 then some 13
  else if e = 116 then some 9
  else none

/-- The UTF-8 bytes of a code point below 0x10000. -/
def encodeRune (c : Nat) : GoString :=
  if c < 128 then [c]
  else if c < 2048 then [192 + c / 64, 128 + c % 64]
  else [224 + c / 4096, 128 + c / 64 % 64, 128 + c % 64]

/-- Where a reader of a JSON string literal is: between characters, right
after a backslash, inside a `\u` escape with `left` digits to go, or inside a
UTF-8 sequence whose next byte must lie in `lo..hi` with `more` bytes after
it. -/
inductive ReadState where
  | plain
  | escape
  | hex (left : Nat) (acc : Nat)
  | tail (lo hi more : Nat)

/-- Reading the inside of a JSON string literal (RFC 8259, sections 7 and 8.1)
after the opening quote.  The result is the UTF-8 text the literal stands for;
`none` when the bytes are not one complete literal: no closing quote, anything
after the closing quote, a raw control character, a bad escape, or bytes that
are not valid UTF-8.  A `\u` escape naming a surrogate code unit is rejected
as well. -/
def readBody : ReadState → GoString → Option GoString
  | _, [] => none
  | .plain, b :: rest =>
    if b = 34 then (if rest.isEmpty then some [] else none)
    else if b = 92 then readBody .escape rest
    else if b < 32 then none
    else if b < 128 then (readBody .plain rest).map (b :: ·)
    else if 2 ≤ seqLen b then
      (readBody (.tail (secondLo b) (secondHi b) (seqLen b - 2)) rest).map (b :: ·)
    else none
  | .tail lo hi more, b :: rest =>
    if lo ≤ b ∧ b ≤ hi then
      if more = 0 then (readBody .plain rest).map (b :: ·)
      else (readBody (.tail 128 191 (more - 1)) rest).map (b :: ·)
    else none
  | .escape, e :: rest =>
    if e = 117 then readBody (.hex 4 0) rest
    else
      match simpleEscape e with
      | some d => (readBody .plain rest).map (d :: ·)
      | none => none
  | .hex left acc, h :: rest =>
    match hexVal h with
    | none => none
    | some d =>
      if left ≤ 1 then
        if 55296 ≤ acc * 16 + d ∧ acc * 16 + d ≤ 57343 then none
        else (readBody .plain rest).map (encodeRune (acc * 16 + d) ++ ·)
      else readBody (.hex (left - 1) (acc * 16 + d)) rest

/-- The UTF-8 text a JSON string literal stands for, when `l` is exactly one
literal of the RFC 8259 grammar: an opening quote followed by a body that
`readBody` accepts up to and including the closing quote. -/
def readJsonStringLiteral (l : GoString) : Option GoString :=
  match l with
  | [] => none
  | q :: rest => if q = 34 then readBody .plain rest else none

/-- `utf8.ValidString` by the same walk as the encoder: `false` as soon as a
byte does not start a valid UTF-8 sequence. -/
def validStringLoop : Nat → GoString → Bool
  | 0, _ => true
  | _ + 1, [] => true
  | fuel + 1, b :: rest =>
    if b < 128 then validStringLoop fuel rest
    else if (decodeRune (b :: rest)).1 = runeError ∧ (decodeRune (b :: rest)).2 = 1 then false
    else validStringLoop fuel ((b :: rest).drop (decodeRune (b :: rest)).2)

/-- Whether a Go string is valid UTF-8. -/
def validString (s : GoString) : Bool := validStringLoop s.length s

/-- The string with every byte that does not start a valid UTF-8 sequence
replaced by the three bytes of U+FFFD. -/
def replaceInvalidLoop : Nat → GoString → GoString
  | 0, _ => []
  | _ + 1, [] => []
  | fuel + 1, b :: rest =>
    if b < 128 then b :: replaceInvalidLoop fuel rest
    else if (decodeRune (b :: rest)).1 = runeError ∧ (decodeRune (b :: rest)).2 = 1 then
      [239, 191, 189] ++ replaceInvalidLoop fuel rest
    else
      (b :: rest).take (decodeRune (b :: rest)).2 ++
        replaceInvalidLoop fuel ((b :: rest).drop (decodeRune (b :: rest)).2)

/-- The string coerced to valid UTF-8, invalid bytes replaced by U+FFFD. -/
def replaceInvalid (s : GoString) : GoString := replaceInvalidLoop s.length s

/-! ## Text in the concrete environment -/

/-- Modelled from the spec: the hexadecimal digit characters `json.Marshal`
(Go standard library, not part of `webview.go`) writes in a `\u` escape. -/
def hexDigit (n : Nat) : Char := Char.ofNat (if n < 10 then 48 + n else 87 + n)

/-- Modelled from the spec: `escapeAscii` and the U+2028, U+2029 rule of
`appendStringLoop` on one character of a string of valid Unicode text
(`json.Marshal`, Go standard library, not part of `webview.go`). -/
def escapeChar (c : Char) : List Char :=
  if c.toNat = 34 then [Char.ofNat 92, Char.ofNat 34]
  else if c.toNat = 92 then [Char.ofNat 92, Char.ofNat 92]
  else if c.toNat = 10 then [Char.ofNat 92, 'n']
  else if c.toNat = 13 then [Char.ofNat 92, 'r']
  else if c.toNat = 9 then [Char.ofNat 92, 't']
  else if c.toNat < 32 ∨ c.toNat = 60 ∨ c.toNat = 62 ∨ c.toNat = 38 ∨
      c.toNat = 8232 ∨ c.toNat = 8233 then
    [Char.ofNat 92, 'u', hexDigit (c.toNat / 4096 % 16), hexDigit (c.toNat / 256 % 16),
      hexDigit (c.toNat / 16 % 16), hexDigit (c.toNat % 16)]
  else [c]

/-- Modelled from the spec: the body of the literal, every character escaped
in turn (`json.Marshal`, Go standard library). -/
def escapeAll : List Char → List Char
  | [] => []
  | c :: cs => escapeChar c ++ escapeAll cs

/-- Modelled from the spec: `json.Marshal` applied to a string of valid
Unicode text (Go standard library, not part of `webview.go`), as the concrete
environment below encodes error texts and string results. -/
def jsonQuote (s : String) : String :=
  String.mk (Char.ofNat 34 :: (escapeAll s.data ++ [Char.ofNat 34]))

/-! ## A small concrete environment

Go types and values for evaluating the definitions above on concrete calls. -/

namespace Demo

/-- Some Go types. -/
inductive GoType where
  | int
  | string
  | error
  | sliceInt
  | chanInt
  deriving DecidableEq, Repr

/-- Values of the types in `GoType`. -/
inductive GoVal where
  | int (n : Int)
  | str (s : String)
  | err (msg : String)
  | ints (xs : List Int)
  | chan
  deriving DecidableEq, Repr

/-- Raw JSON fragments: the scalar values. -/
inductive Json where
  | null
  | num (n : Int)
  | str (s : String)
  deriving DecidableEq, Repr

/-- `Type.String()`. -/
def GoType.name : GoType → String
  | .int => "int"
  | .string => "string"
  | .error => "error"
  | .sliceInt => "[]int"
  | .chanInt => "chan int"

/-- The kind of JSON value named in an `UnmarshalTypeError`. -/
def Json.kind : Json → String
  | .null => "null"
  | .num _ => "number"
  | .str _ => "string"

/-- Decoding a scalar fragment as `encoding/json` does: a number into `int`, a
string into `string`, `null` into anything (the zero value stays), and an
`UnmarshalTypeError` otherwise. -/
def unmarshal (raw : Json) (ty : GoType) : Except String GoVal :=
  match raw, ty with
  | .num n, .int => .ok (.int n)
  | .str s, .string => .ok (.str s)
  | .null, .int => .ok (.int 0)
  | .null, .string => .ok (.str "")
  | .null, .sliceInt => .ok (.ints [])
  | raw, ty =>
    .error ("json: cannot unmarshal " ++ raw.kind ++ " into Go value of type " ++ ty.name)

/-- Decimal digits of a natural number, with fuel. -/
def digits : Nat → Nat → List Char
  | 0, _ => []
  | fuel + 1, n =>
    if n < 10 then [Char.ofNat (48 + n)]
    else digits fuel (n / 10) ++ [Char.ofNat (48 + n % 10)]

/-- An integer in decimal. -/
def showInt : Int → String
  | .ofNat n => String.mk (digits (n + 1) n)
  | .negSucc n => String.mk ('-' :: digits (n + 2) (n + 1))

/-- A list of integers as a JSON array body. -/
def showInts : List Int → String
  | [] => ""
  | [x] => showInt x
  | x :: xs => showInt x ++ "," ++ showInts xs

/-- Encoding as `encoding/json` does: `null` for nil, decimal integers, quoted
strings, `\x7b\x7d` for an error value without exported fields, and an
`UnsupportedTypeError` for a channel. -/
def marshal : Option GoVal → Except String String
  | none => .ok "null"
  | some (.int n) => .ok (showInt n)
  | some (.str s) => .ok (jsonQuote s)
  | some (.err _) => .ok "\x7b\x7d"
  | some (.ints xs) => .ok ("[" ++ showInts xs ++ "]")
  | some .chan => .error "json: unsupported type: chan int"

/-- The environment: a request is `none` when its text is not a JSON array. -/
def env : JsonEnv (Option (List Json)) Json GoType GoVal where
  unmarshalArray := fun req =>
    match req with
    | some raw => .ok raw
    | none => .error "json: cannot unmarshal object into Go value of type []json.RawMessage"
  unmarshal := unmarshal
  marshal := marshal
  elem := fun ty =>
    match ty with
    | .sliceInt => some .int
    | .chanInt => some .int
    | _ => none
  implementsError := fun ty => decide (ty = .error)
  errorText := fun v =>
    match v with
    | .err msg => msg
    | _ => ""
  ofString := .str

/-- `func(a, b int) int`, adding its arguments; the host state counts the
invocations. -/
def add2 : HostFunc GoType GoVal Nat where
  type := { ins := [.int, .int], isVariadic := false, outs := [.int] }
  body := fun fixed _ s =>
    match fixed with
    | [.int a, .int b] => ([{ ty := .int, iface := some (.int (a + b)) }], s + 1)
    | _ => ([{ ty := .int, iface := some (.int 0) }], s + 1)

/-- `func() (int, int)`, returning 1 and 2. -/
def pair : HostFunc GoType GoVal Nat where
  type := { ins := [], isVariadic := false, outs := [.int, .int] }
  body := fun _ _ s =>
    ([{ ty := .int, iface := some (.int 1) }, { ty := .int, iface := some (.int 2) }], s + 1)

/-- `func() (int, int, error)`. -/
def triple : HostFunc GoType GoVal Nat where
  type := { ins := [], isVariadic := false, outs := [.int, .int, .error] }
  body := fun _ _ s =>
    ([{ ty := .int, iface := some (.int 1) }, { ty := .int, iface := some (.int 2) },
      { ty := .error, iface := none }], s + 1)

/-- `func(name string) (string, error)`, returning `"partial"` and the error
`boom`. -/
def failing : HostFunc GoType GoVal Nat where
  type := { ins := [.string], isVariadic := false, outs := [.string, .error] }
  body := fun _ _ s =>
    ([{ ty := .string, iface := some (.str "partial") },
      { ty := .error, iface := some (.err "boom") }], s + 1)

/-- `func(label string, xs ...int) []int`, returning `xs`. -/
def collect : HostFunc GoType GoVal Nat where
  type := { ins := [.string, .sliceInt], isVariadic := true, outs := [.sliceInt] }
  body := fun _ slot s =>
    ([{ ty := .sliceInt,
        iface := some (.ints (slot.filterMap fun x =>
          match x with
          | .int n => some n
          | _ => none)) }], s + 1)

/-- The registry after binding `v` in the initial state. -/
def boundAlone (v : HostFunc GoType GoVal Nat) :
    Registry Unit (BindingFn (Option (List Json)) GoVal Nat) :=
  { index := 0, dispatch := [], bindings := [(0, some (binding env v))] }

end Demo

/-! ## Theorems -/

namespace GoMap

variable {K V : Type} [DecidableEq K]

theorem find_erase_self (m : GoMap K V) (k : K) : find (erase m k) k = none := by
  induction m with
  | nil => rfl
  | cons e rest ih =>
    obtain ⟨k', v⟩ := e
    by_cases h : k' = k
    · simpa [erase, List.filter_cons, h] using ih
    · simpa [erase, List.filter_cons, h, find] using ih

theorem find_erase_ne (m : GoMap K V) {k j : K} (h : j ≠ k) :
    find (erase m k) j = find m j := by
  induction m with
  | nil => rfl
  | cons e rest ih =>
    obtain ⟨k', v⟩ := e
    by_cases hk : k' = k
    · subst hk
      have hj : ¬ k' = j := fun hkj => h hkj.symm
      have e1 : erase ((k', v) :: rest) k' = erase rest k' := by
        simp [erase, List.filter_cons]
      rw [e1, ih]
      simp [find, hj]
    · have e1 : erase ((k', v) :: rest) k = (k', v) :: erase rest k := by
        simp [erase, List.filter_cons, hk]
      rw [e1]
      by_cases hj : k' = j
      · simp [find, hj]
      · simp [find, hj, ih]

theorem find_assign_self (m : GoMap K V) (k : K) (v : V) :
    find (assign m k v) k = some v := by
  simp [assign, find]

theorem find_assign_ne (m : GoMap K V) {k j : K} (v : V) (h : j ≠ k) :
    find (assign m k v) j = find m j := by
  have hk : ¬ k = j := fun e => h e.symm
  simp [assign, find, hk, find_erase_ne m h]

theorem funcAt_erase_self {F : Type} (m : GoMap K (Option F)) (k : K) :
    funcAt (erase m k) k = none := by
  simp [funcAt, find_erase_self]

theorem funcAt_erase_ne {F : Type} (m : GoMap K (Option F)) {k j : K} (h : j ≠ k) :
    funcAt (erase m k) j = funcAt m j := by
  simp [funcAt, find_erase_ne m h]

theorem funcAt_assign_self {F : Type} (m : GoMap K (Option F)) (k : K) (f : Option F) :
    funcAt (assign m k f) k = f := by
  simp [funcAt, find_assign_self]

theorem funcAt_assign_ne {F : Type} (m : GoMap K (Option F)) {k j : K} (f : Option F)
    (h : j ≠ k) : funcAt (assign m k f) j = funcAt m j := by
  simp [funcAt, find_assign_ne m f h]

theorem length_erase_le (m : GoMap K V) (k : K) : (erase m k).length ≤ m.length := by
  simpa [erase] using List.length_filter_le _ m

theorem length_assign_le (m : GoMap K V) (k : K) (v : V) :
    (assign m k v).length ≤ m.length + 1 := by
  simpa [assign] using length_erase_le m k

theorem mem_keys_of_find {m : GoMap K V} {k : K} {v : V} (h : find m k = some v) :
    k ∈ m.map Prod.fst := by
  induction m with
  | nil => simp [find] at h
  | cons e rest ih =>
    obtain ⟨k', w⟩ := e
    by_cases hk : k' = k
    · simp [hk]
    · simp only [find, hk, if_false] at h
      simp [ih h]

theorem mem_keys_of_funcAt {F : Type} {m : GoMap K (Option F)} {k : K}
    (h : (funcAt m k).isSome = true) : k ∈ m.map Prod.fst := by
  unfold funcAt at h
  cases hf : find m k with
  | none => simp [hf] at h
  | some f => exact mem_keys_of_find hf

end GoMap

theorem probe_free (occupied : Nat → Bool) (fuel i t : Nat)
    (h : probe occupied fuel i = some t) : occupied t = false := by
  induction fuel generalizing i with
  | zero => simp [probe] at h
  | succ n ih =>
    by_cases ho : occupied i = true
    · simp only [probe, ho, if_true] at h
      exact ih _ h
    · simp only [probe, ho] at h
      simp only [Bool.false_eq_true, if_false, Option.some.injEq] at h
      subst h
      simpa using ho

theorem probe_lt (occupied : Nat → Bool) (fuel i t : Nat) (hi : i < uintptrSize)
    (h : probe occupied fuel i = some t) : t < uintptrSize := by
  induction fuel generalizing i with
  | zero => simp [probe] at h
  | succ n ih =>
    by_cases ho : occupied i = true
    · simp only [probe, ho, if_true] at h
      exact ih _ (Nat.mod_lt _ (by decide)) h
    · simp only [probe, ho] at h
      simp only [Bool.false_eq_true, if_false, Option.some.injEq] at h
      omega

theorem probe_none (occupied : Nat → Bool) (fuel i : Nat)
    (h : probe occupied fuel i = none) :
    ∀ j, j < fuel → occupied ((i + j) % uintptrSize) = true ∨ (j = 0 ∧ occupied i = true) := by
  induction fuel generalizing i with
  | zero => intro j hj; omega
  | succ n ih =>
    intro j hj
    by_cases ho : occupied i = true
    · simp only [probe, ho, if_true] at h
      cases j with
      | zero => exact Or.inr ⟨rfl, ho⟩
      | succ j =>
        left
        have := ih _ h j (by omega)
        rcases this with h1 | ⟨h0, h1⟩
        · have e : ((i + 1) % uintptrSize + j) % uintptrSize = (i + (j + 1)) % uintptrSize := by
            rw [Nat.add_mod, Nat.mod_mod, ← Nat.add_mod]; congr 1; omega
          rwa [e] at h1
        · subst h0
          simpa using h1
    · simp [probe, ho] at h

theorem probe_succeeds (occupied : Nat → Bool) (keys : List Nat)
    (hocc : ∀ k, occupied k = true → k ∈ keys) (i : Nat) (hi : i < uintptrSize)
    (hlen : keys.length < uintptrSize) :
    ∃ t, probe occupied (keys.length + 1) i = some t := by
  cases hp : probe occupied (keys.length + 1) i with
  | some t => exact ⟨t, rfl⟩
  | none =>
    exfalso
    have hall : ∀ j, j < keys.length + 1 → (i + j) % uintptrSize ∈ keys := by
      intro j hj
      rcases probe_none occupied _ i hp j hj with h | ⟨h0, h⟩
      · exact hocc _ h
      · subst h0
        have : (i + 0) % uintptrSize = i := by simpa using Nat.mod_eq_of_lt hi
        rw [this]; exact hocc _ h
    have hnd : ((List.range (keys.length + 1)).map fun j => (i + j) % uintptrSize).Nodup := by
      refine List.Nodup.map_on ?_ (List.nodup_range _)
      intro a ha b hb hab
      have ha' : a < uintptrSize := by have := List.mem_range.mp ha; omega
      have hb' : b < uintptrSize := by have := List.mem_range.mp hb; omega
      have h1 : a ≡ b [MOD uintptrSize] := Nat.ModEq.add_left_cancel' i hab
      exact Nat.ModEq.eq_of_lt_of_lt h1 ha' hb'
    have hsub : ((List.range (keys.length + 1)).map fun j => (i + j) % uintptrSize) ⊆ keys := by
      intro x hx
      obtain ⟨j, hj, rfl⟩ := List.mem_map.mp hx
      exact hall j (List.mem_range.mp hj)
    have hle := (List.subperm_of_subset hnd hsub).length_le
    simp at hle

/-- What a successful `Dispatch` does to the registry. -/
theorem Dispatch_spec {W B : Type} (r r' : Registry W B) (f : Option W) (t : Nat)
    (h : Dispatch r f = some (r', t)) :
    GoMap.funcAt r.dispatch t = none ∧ GoMap.funcAt r'.dispatch t = f ∧
    (∀ k, k ≠ t → GoMap.funcAt r'.dispatch k = GoMap.funcAt r.dispatch k) ∧
    r'.bindings = r.bindings ∧ r'.index = t ∧
    r'.dispatch.length ≤ r.dispatch.length + 1 ∧
    (r.index < uintptrSize → t < uintptrSize) := by
  unfold Dispatch at h
  cases hp : probe (fun i => (GoMap.funcAt r.dispatch i).isSome)
      (r.dispatch.length + 1) r.index with
  | none => simp [hp] at h
  | some i =>
    simp only [hp, Option.some.injEq, Prod.mk.injEq] at h
    obtain ⟨hr, ht⟩ := h
    subst ht; subst hr
    have hfree := probe_free _ _ _ _ hp
    refine ⟨?_, GoMap.funcAt_assign_self _ _ _, ?_, rfl, rfl,
      GoMap.length_assign_le _ _ _, fun hi => probe_lt _ _ _ _ hi hp⟩
    · simpa using hfree
    · intro k hk
      exact GoMap.funcAt_assign_ne _ _ hk

/-- What a successful allocation in `Bind` does to the registry. -/
theorem bindAlloc_spec {W B : Type} (r r' : Registry W B) (b : B) (t : Nat)
    (h : bindAlloc r b = some (r', t)) :
    GoMap.funcAt r.bindings t = none ∧ GoMap.funcAt r'.bindings t = some b ∧
    (∀ k, k ≠ t → GoMap.funcAt r'.bindings k = GoMap.funcAt r.bindings k) ∧
    r'.dispatch = r.dispatch ∧ r'.index = t ∧
    r'.bindings.length ≤ r.bindings.length + 1 ∧
    (r.index < uintptrSize → t < uintptrSize) := by
  unfold bindAlloc at h
  cases hp : probe (fun i => (GoMap.funcAt r.bindings i).isSome)
      (r.bindings.length + 1) r.index with
  | none => simp [hp] at h
  | some i =>
    simp only [hp, Option.some.injEq, Prod.mk.injEq] at h
    obtain ⟨hr, ht⟩ := h
    subst ht; subst hr
    have hfree := probe_free _ _ _ _ hp
    refine ⟨?_, GoMap.funcAt_assign_self _ _ _, ?_, rfl, rfl,
      GoMap.length_assign_le _ _ _, fun hi => probe_lt _ _ _ _ hi hp⟩
    · simpa using hfree
    · intro k hk
      exact GoMap.funcAt_assign_ne _ _ hk

/-- `Dispatch` returns whenever the cursor is a `uintptr` and the dispatch
table holds fewer pairs than there are `uintptr` values. -/
theorem Dispatch_returns {W B : Type} (r : Registry W B) (f : Option W)
    (hi : r.index < uintptrSize) (hlen : r.dispatch.length < uintptrSize) :
    ∃ r' t, Dispatch r f = some (r', t) := by
  have hlen' : (r.dispatch.map Prod.fst).length < uintptrSize := by simpa using hlen
  obtain ⟨t, ht⟩ := probe_succeeds (fun i => (GoMap.funcAt r.dispatch i).isSome)
    (r.dispatch.map Prod.fst) (fun k hk => GoMap.mem_keys_of_funcAt hk) r.index hi hlen'
  simp only [List.length_map] at ht
  exact ⟨_, t, by simp only [Dispatch, ht]; rfl⟩

/-- The allocation in `Bind` returns under the same conditions on `bindings`. -/
theorem bindAlloc_returns {W B : Type} (r : Registry W B) (b : B)
    (hi : r.index < uintptrSize) (hlen : r.bindings.length < uintptrSize) :
    ∃ r' t, bindAlloc r b = some (r', t) := by
  have hlen' : (r.bindings.map Prod.fst).length < uintptrSize := by simpa using hlen
  obtain ⟨t, ht⟩ := probe_succeeds (fun i => (GoMap.funcAt r.bindings i).isSome)
    (r.bindings.map Prod.fst) (fun k hk => GoMap.mem_keys_of_funcAt hk) r.index hi hlen'
  simp only [List.length_map] at ht
  exact ⟨_, t, by simp only [bindAlloc, ht]; rfl⟩

theorem stepOp_keeps_entry {W B : Type} (r r' : Registry W B) (op : Op W B)
    (recs : List AllocRecord) (t : Nat) (w : W) (hop : op ≠ Op.callback t)
    (h : stepOp r op = some (r', recs)) (hw : GoMap.funcAt r.dispatch t = some w) :
    GoMap.funcAt r'.dispatch t = some w := by
  cases op with
  | dispatch f =>
    simp only [stepOp] at h
    cases hd : Dispatch r f with
    | none => simp [hd] at h
    | some p =>
      obtain ⟨r1, t1⟩ := p
      simp only [hd, Option.some.injEq, Prod.mk.injEq] at h
      obtain ⟨hr, -⟩ := h
      subst hr
      obtain ⟨hfree, -, hother, -⟩ := Dispatch_spec r r1 f t1 hd
      have hne : t ≠ t1 := by
        intro e; subst e; rw [hfree] at hw; cases hw
      rw [hother t hne, hw]
  | bind b =>
    simp only [stepOp] at h
    cases hd : bindAlloc r b with
    | none => simp [hd] at h
    | some p =>
      obtain ⟨r1, t1⟩ := p
      simp only [hd, Option.some.injEq, Prod.mk.injEq] at h
      obtain ⟨hr, -⟩ := h
      subst hr
      obtain ⟨-, -, -, hdis, -⟩ := bindAlloc_spec r r1 b t1 hd
      rw [hdis, hw]
  | callback t1 =>
    simp only [stepOp, webviewDispatchGoCallback, Option.some.injEq, Prod.mk.injEq] at h
    obtain ⟨hr, -⟩ := h
    subst hr
    have hne : t ≠ t1 := by
      intro e; subst e; exact hop rfl
    simp only
    rw [GoMap.funcAt_erase_ne _ hne, hw]

theorem runOps_keeps_entry {W B : Type} (ops : List (Op W B)) (r r' : Registry W B)
    (recs : List AllocRecord) (t : Nat) (w : W) (hops : ∀ op ∈ ops, op ≠ Op.callback t)
    (h : runOps r ops = some (r', recs)) (hw : GoMap.funcAt r.dispatch t = some w) :
    GoMap.funcAt r'.dispatch t = some w := by
  induction ops generalizing r recs with
  | nil =>
    simp only [runOps, Option.some.injEq, Prod.mk.injEq] at h
    obtain ⟨hr, -⟩ := h
    subst hr; exact hw
  | cons op ops ih =>
    simp only [runOps] at h
    cases hs : stepOp r op with
    | none => simp [hs] at h
    | some p =>
      obtain ⟨r1, recs1⟩ := p
      simp only [hs] at h
      cases hr : runOps r1 ops with
      | none => simp [hr] at h
      | some q =>
        obtain ⟨r2, recs2⟩ := q
        simp only [hr, Option.some.injEq, Prod.mk.injEq] at h
        obtain ⟨h2, -⟩ := h
        subst h2
        have hw1 := stepOp_keeps_entry r r1 op recs1 t w
          (hops op (List.mem_cons_self _ _)) hs hw
        exact ih r1 recs2 (fun o ho => hops o (List.mem_cons_of_mem _ ho)) hr hw1

theorem runOps_fresh_aux {W B : Type} (ops : List (Op W B)) (r : Registry W B)
    (hi : r.index < uintptrSize)
    (hd : r.dispatch.length + ops.length < uintptrSize)
    (hb : r.bindings.length + ops.length < uintptrSize) :
    ∃ r' recs, runOps r ops = some (r', recs) ∧
      ∀ a ∈ recs, (a.forBinding = true → a.liveBinding = false) ∧
        (a.forBinding = false → a.liveDispatch = false) := by
  induction ops generalizing r with
  | nil => exact ⟨r, [], rfl, by simp⟩
  | cons op ops ih =>
    simp only [List.length_cons] at hd hb
    cases op with
    | dispatch f =>
      obtain ⟨r1, t, h1⟩ := Dispatch_returns r f hi (by omega)
      obtain ⟨hfree, -, -, hbind, hidx, hlen, hlt⟩ := Dispatch_spec r r1 f t h1
      obtain ⟨r2, recs, h2, hrec⟩ := ih r1 (by rw [hidx]; exact hlt hi) (by omega)
        (by rw [hbind]; omega)
      refine ⟨r2, _, by simp only [runOps, stepOp, h1, h2]; rfl, ?_⟩
      intro a ha
      rcases List.mem_append.mp ha with ha | ha
      · simp only [List.mem_singleton] at ha
        subst ha
        simp [hfree]
      · exact hrec a ha
    | bind b =>
      obtain ⟨r1, t, h1⟩ := bindAlloc_returns r b hi (by omega)
      obtain ⟨hfree, -, -, hdis, hidx, hlen, hlt⟩ := bindAlloc_spec r r1 b t h1
      obtain ⟨r2, recs, h2, hrec⟩ := ih r1 (by rw [hidx]; exact hlt hi)
        (by rw [hdis]; omega) (by omega)
      refine ⟨r2, _, by simp only [runOps, stepOp, h1, h2]; rfl, ?_⟩
      intro a ha
      rcases List.mem_append.mp ha with ha | ha
      · simp only [List.mem_singleton] at ha
        subst ha
        simp [hfree]
      · exact hrec a ha
    | callback t =>
      have hl := GoMap.length_erase_le r.dispatch t
      obtain ⟨r2, recs, h2, hrec⟩ := ih (webviewDispatchGoCallback r t).1 hi
        (by simp only [webviewDispatchGoCallback]; omega) (by simpa [webviewDispatchGoCallback] using by omega)
      refine ⟨r2, recs, by simp only [runOps, stepOp, h2, List.nil_append], hrec⟩

theorem runOps_fresh {W B : Type} (ops : List (Op W B)) (r r' : Registry W B)
    (recs : List AllocRecord) (h : runOps r ops = some (r', recs)) :
    ∀ a ∈ recs, (a.forBinding = true → a.liveBinding = false) ∧
      (a.forBinding = false → a.liveDispatch = false) := by
  induction ops generalizing r recs with
  | nil =>
    simp only [runOps, Option.some.injEq, Prod.mk.injEq] at h
    obtain ⟨-, hrec⟩ := h
    subst hrec
    simp
  | cons op ops ih =>
    simp only [runOps] at h
    cases hs : stepOp r op with
    | none => simp [hs] at h
    | some p =>
      obtain ⟨r1, recs1⟩ := p
      simp only [hs] at h
      cases hr : runOps r1 ops with
      | none => simp [hr] at h
      | some q =>
        obtain ⟨r2, recs2⟩ := q
        simp only [hr, Option.some.injEq, Prod.mk.injEq] at h
        obtain ⟨h2, hrec⟩ := h
        subst h2
        subst hrec
        intro a ha
        rcases List.mem_append.mp ha with ha | ha
        · cases op with
          | dispatch f =>
            simp only [stepOp] at hs
            cases hd : Dispatch r f with
            | none => simp [hd] at hs
            | some d =>
              obtain ⟨rd, t⟩ := d
              have hfree := (Dispatch_spec r rd f t hd).1
              simp only [hd, Option.some.injEq, Prod.mk.injEq] at hs
              obtain ⟨-, hrecs⟩ := hs
              subst hrecs
              simp only [List.mem_singleton] at ha
              subst ha
              simp [hfree]
          | bind b =>
            simp only [stepOp] at hs
            cases hd : bindAlloc r b with
            | none => simp [hd] at hs
            | some d =>
              obtain ⟨rd, t⟩ := d
              have hfree := (bindAlloc_spec r rd b t hd).1
              simp only [hd, Option.some.injEq, Prod.mk.injEq] at hs
              obtain ⟨-, hrecs⟩ := hs
              subst hrecs
              simp only [List.mem_singleton] at ha
              subst ha
              simp [hfree]
          | callback t =>
            simp only [stepOp, Option.some.injEq, Prod.mk.injEq] at hs
            obtain ⟨-, hrecs⟩ := hs
            subst hrecs
            simp at ha
        · exact ih r1 recs2 hr a ha

/-! ### Token allocation (C3) -/

/-- C3, as stated, fails: after a `Bind`, a `Dispatch` is given token 0 although
token 0 is the token of the live binding entry; afterwards a dispatch entry
and a binding entry are both live under token 0. -/
theorem token_shared_across_tables :
    (runOps (Registry.init Unit Unit) [Op.bind (), Op.dispatch (some ())]).map
        (fun p => (p.2, GoMap.funcAt p.1.dispatch 0, GoMap.funcAt p.1.bindings 0)) =
      some ([{ token := 0, forBinding := true, liveDispatch := false, liveBinding := false },
             { token := 0, forBinding := false, liveDispatch := false, liveBinding := true }],
            some (), some ()) := by
  decide

/-- C3 (amended): for every sequence of Dispatch, Bind and dispatch-callback
operations from the empty registry and cursor 0, the token a Bind gets is not
live in `bindings` at that moment and the token a Dispatch gets is not live in
`dispatch` at that moment, so no two live entries of the same table share a
token; and every allocation of a sequence of fewer than 2^64 operations
returns. -/
theorem tokens_fresh_within_table {W B : Type} (ops : List (Op W B)) :
    (ops.length < uintptrSize → ∃ r recs, runOps (Registry.init W B) ops = some (r, recs)) ∧
    ∀ r recs, runOps (Registry.init W B) ops = some (r, recs) →
      ∀ a ∈ recs, (a.forBinding = true → a.liveBinding = false) ∧
        (a.forBinding = false → a.liveDispatch = false) := by
  constructor
  · intro hlen
    obtain ⟨r, recs, h, -⟩ := runOps_fresh_aux ops (Registry.init W B)
      (by simp [Registry.init, uintptrSize])
      (by simpa [Registry.init] using hlen) (by simpa [Registry.init] using hlen)
    exact ⟨r, recs, h⟩
  · intro r recs h
    exact runOps_fresh ops _ r recs h

theorem tokens_fresh_within_table_witness :
    runOps (Registry.init Nat Nat)
        [Op.dispatch (some 7), Op.bind 1, Op.dispatch (some 8), Op.callback 0,
          Op.dispatch (some 9)] =
      some ({ index := 2, dispatch := [(2, some 9), (1, some 8)], bindings := [(0, some 1)] },
        [{ token := 0, forBinding := false, liveDispatch := false, liveBinding := false },
         { token := 0, forBinding := true, liveDispatch := true, liveBinding := false },
         { token := 1, forBinding := false, liveDispatch := false, liveBinding := false },
         { token := 2, forBinding := false, liveDispatch := false, liveBinding := false }]) ∧
    (∃ r recs, runOps (Registry.init Nat Nat)
        [Op.dispatch (some 7), Op.bind 1, Op.dispatch (some 8), Op.callback 0,
          Op.dispatch (some 9)] = some (r, recs)) ∧
    ∀ a ∈ [({ token := 0, forBinding := false, liveDispatch := false, liveBinding := false } :
            AllocRecord),
         { token := 0, forBinding := true, liveDispatch := true, liveBinding := false },
         { token := 1, forBinding := false, liveDispatch := false, liveBinding := false },
         { token := 2, forBinding := false, liveDispatch := false, liveBinding := false }],
      (a.forBinding = true → a.liveBinding = false) ∧
        (a.forBinding = false → a.liveDispatch = false) :=
  ⟨rfl,
    (tokens_fresh_within_table
      [Op.dispatch (some 7), Op.bind 1, Op.dispatch (some 8), Op.callback 0,
        Op.dispatch (some 9)]).1 (by decide),
    (tokens_fresh_within_table
      [Op.dispatch (some 7), Op.bind 1, Op.dispatch (some 8), Op.callback 0,
        Op.dispatch (some 9)]).2 _ _ rfl⟩

/-! ### Dispatch callback (C4) -/

/-- C4: a work item `w` posted with `Dispatch` got token `t`; after any further
operations other than the callback for `t`, the dispatch callback invoked with
`t` hands out exactly `w` for execution, `t` is then absent from the dispatch
table (a second callback for `t` finds nil), and every other dispatch entry,
every binding entry and the cursor are as before the callback. -/
theorem dispatch_callback_runs_posted_once {W B : Type} (r r1 r2 : Registry W B) (w : W)
    (t : Nat) (ops : List (Op W B)) (recs : List AllocRecord)
    (hpost : Dispatch r (some w) = some (r1, t))
    (hops : ∀ op ∈ ops, op ≠ Op.callback t)
    (hrun : runOps r1 ops = some (r2, recs)) :
    (webviewDispatchGoCallback r2 t).2 = some w ∧
    GoMap.funcAt (webviewDispatchGoCallback r2 t).1.dispatch t = none ∧
    (webviewDispatchGoCallback (webviewDispatchGoCallback r2 t).1 t).2 = none ∧
    (∀ k, k ≠ t → GoMap.funcAt (webviewDispatchGoCallback r2 t).1.dispatch k =
      GoMap.funcAt r2.dispatch k) ∧
    (webviewDispatchGoCallback r2 t).1.bindings = r2.bindings ∧
    (webviewDispatchGoCallback r2 t).1.index = r2.index := by
  obtain ⟨-, hset, -⟩ := Dispatch_spec r r1 (some w) t hpost
  have hw := runOps_keeps_entry ops r1 r2 recs t w hops hrun hset
  refine ⟨hw, GoMap.funcAt_erase_self _ _, GoMap.funcAt_erase_self _ _, ?_, rfl, rfl⟩
  intro k hk
  exact GoMap.funcAt_erase_ne _ hk

theorem dispatch_callback_runs_posted_once_witness :
    (webviewDispatchGoCallback
        (⟨1, [(1, some 8), (0, some 7)], [(0, some 5)]⟩ : Registry Nat Nat) 0).2 = some 7 ∧
    GoMap.funcAt (webviewDispatchGoCallback
        (⟨1, [(1, some 8), (0, some 7)], [(0, some 5)]⟩ : Registry Nat Nat) 0).1.dispatch 0
      = none ∧
    (webviewDispatchGoCallback (webviewDispatchGoCallback
        (⟨1, [(1, some 8), (0, some 7)], [(0, some 5)]⟩ : Registry Nat Nat) 0).1 0).2
      = none ∧
    (∀ k, k ≠ 0 → GoMap.funcAt (webviewDispatchGoCallback
        (⟨1, [(1, some 8), (0, some 7)], [(0, some 5)]⟩ : Registry Nat Nat) 0).1.dispatch k =
      GoMap.funcAt [(1, some 8), (0, some 7)] k) ∧
    (webviewDispatchGoCallback
        (⟨1, [(1, some 8), (0, some 7)], [(0, some 5)]⟩ : Registry Nat Nat) 0).1.bindings
      = [(0, some 5)] ∧
    (webviewDispatchGoCallback
        (⟨1, [(1, some 8), (0, some 7)], [(0, some 5)]⟩ : Registry Nat Nat) 0).1.index = 1 :=
  dispatch_callback_runs_posted_once (Registry.init Nat Nat) ⟨0, [(0, some 7)], []⟩
    ⟨1, [(1, some 8), (0, some 7)], [(0, some 5)]⟩ 7 0
    [Op.bind 5, Op.dispatch (some 8)]
    [{ token := 0, forBinding := true, liveDispatch := true, liveBinding := false },
     { token := 1, forBinding := false, liveDispatch := false, liveBinding := false }]
    rfl (by intro op hop; simp at hop; rcases hop with rfl | rfl <;> simp)
    rfl

/-! ### The binder -/

theorem Bind_ok {W Req Raw Ty Val σ : Type} (env : JsonEnv Req Raw Ty Val)
    (r : Registry W (BindingFn Req Val σ)) (name : String) (v : HostFunc Ty Val σ)
    (out : BindOutcome W (BindingFn Req Val σ))
    (hbind : Bind env r name (.func v) = some out) (hok : out.err = none) :
    ∃ t, out.bound = some (name, t) ∧
      GoMap.funcAt out.registry.bindings t = some (binding env v) := by
  unfold Bind at hbind
  by_cases hn : v.type.NumOut > 2
  · simp only [hn, if_true, Option.some.injEq] at hbind
    subst hbind
    simp at hok
  · simp only [hn, if_false] at hbind
    cases ha : bindAlloc r (binding env v) with
    | none => simp [ha] at hbind
    | some p =>
      obtain ⟨r', t⟩ := p
      simp only [ha, Option.some.injEq] at hbind
      subst hbind
      exact ⟨t, rfl, (bindAlloc_spec r r' _ t ha).2.1⟩

theorem callback_of_entry {W Req Raw Ty Val σ : Type} (env : JsonEnv Req Raw Ty Val)
    (r : Registry W (BindingFn Req Val σ)) (f : BindingFn Req Val σ) (id : String)
    (req : Req) (t : Nat) (s : σ) (ret : Option Val × Option String) (s' : σ)
    (hentry : GoMap.funcAt r.bindings t = some f) (hf : f id req s = some (ret, s')) :
    webviewBindingGoCallback env r id req t s = some (envelopeOf env id ret, s') := by
  simp [webviewBindingGoCallback, hentry, hf]

theorem envelopeOf_error {Req Raw Ty Val : Type} (env : JsonEnv Req Raw Ty Val) (id : String)
    (x : Option Val) (e : String) :
    envelopeOf env id (x, some e) = { id := id, status := -1, result := jsString env e } := by
  simp [envelopeOf]

theorem arityMismatch_iff {Ty : Type} (ft : FuncType Ty) (n : Nat) :
    arityMismatch ft n = true ↔
      ((ft.isVariadic = true ∧ (n : Int) < ft.NumIn - 1) ∨
        (ft.isVariadic = false ∧ (n : Int) ≠ ft.NumIn)) := by
  cases hv : ft.isVariadic <;> simp [arityMismatch, hv]

theorem binding_of_mismatch {Req Raw Ty Val σ : Type} (env : JsonEnv Req Raw Ty Val)
    (v : HostFunc Ty Val σ) (id : String) (req : Req) (raw : List Raw) (s : σ)
    (hreq : env.unmarshalArray req = .ok raw) (hm : arityMismatch v.type raw.length = true) :
    binding env v id req s = some ((none, some "function arguments mismatch"), s) := by
  simp [binding, hreq, hm]

theorem binding_of_arity_ok {Req Raw Ty Val σ : Type} (env : JsonEnv Req Raw Ty Val)
    (v : HostFunc Ty Val σ) (id : String) (req : Req) (raw : List Raw) (s : σ)
    (hreq : env.unmarshalArray req = .ok raw) (hm : arityMismatch v.type raw.length = false) :
    binding env v id req s = decodeAndCall env v raw s := by
  simp [binding, hreq, hm]

/-! ### Argument count (C1) -/

/-- C1: a function `v` was bound successfully and the engine was given token
`t`; a call whose request is a JSON array `raw` of n arguments is delivered.
If `v` is variadic and n < numIn-1, or `v` is not variadic and n ≠ numIn, the
closure returns the error "function arguments mismatch", the envelope is a
failure carrying that text, and the host state is untouched whatever the body
of the function does to it (the function is not invoked); otherwise the
closure goes on to decoding.  In particular a
non-variadic function with N parameters called with N-1 or N+1 arguments fails
this way. -/
theorem arity_mismatch_fails_without_call {W Req Raw Ty Val σ : Type}
    (env : JsonEnv Req Raw Ty Val) (r : Registry W (BindingFn Req Val σ)) (name : String)
    (v : HostFunc Ty Val σ) (out : BindOutcome W (BindingFn Req Val σ)) (id : String)
    (req : Req) (raw : List Raw) (s : σ)
    (hbind : Bind env r name (.func v) = some out) (hok : out.err = none)
    (hreq : env.unmarshalArray req = .ok raw) :
    ∃ t, out.bound = some (name, t) ∧
      (((v.type.isVariadic = true ∧ (raw.length : Int) < v.type.NumIn - 1) ∨
          (v.type.isVariadic = false ∧ (raw.length : Int) ≠ v.type.NumIn)) →
        binding env v id req s = some ((none, some "function arguments mismatch"), s) ∧
        webviewBindingGoCallback env out.registry id req t s =
          some ({ id := id, status := -1,
                  result := jsString env "function arguments mismatch" }, s)) ∧
      (¬ ((v.type.isVariadic = true ∧ (raw.length : Int) < v.type.NumIn - 1) ∨
          (v.type.isVariadic = false ∧ (raw.length : Int) ≠ v.type.NumIn)) →
        binding env v id req s = decodeAndCall env v raw s) ∧
      (v.type.isVariadic = false →
        (raw.length + 1 = v.type.ins.length ∨ raw.length = v.type.ins.length + 1) →
        webviewBindingGoCallback env out.registry id req t s =
          some ({ id := id, status := -1,
                  result := jsString env "function arguments mismatch" }, s)) := by
  obtain ⟨t, hb, hentry⟩ := Bind_ok env r name v out hbind hok
  have key : arityMismatch v.type raw.length = true →
      webviewBindingGoCallback env out.registry id req t s =
        some ({ id := id, status := -1,
                result := jsString env "function arguments mismatch" }, s) := by
    intro hm
    rw [callback_of_entry env out.registry _ id req t s _ s hentry
      (binding_of_mismatch env v id req raw s hreq hm), envelopeOf_error]
  refine ⟨t, hb, ?_, ?_, ?_⟩
  · intro h
    have hm := (arityMismatch_iff v.type raw.length).mpr h
    exact ⟨binding_of_mismatch env v id req raw s hreq hm, key hm⟩
  · intro h
    have hm : arityMismatch v.type raw.length = false := by
      cases hc : arityMismatch v.type raw.length with
      | false => rfl
      | true => exact absurd ((arityMismatch_iff v.type raw.length).mp hc) h
    exact binding_of_arity_ok env v id req raw s hreq hm
  · intro hv hn
    apply key
    apply (arityMismatch_iff v.type raw.length).mpr
    right
    refine ⟨hv, ?_⟩
    simp only [FuncType.NumIn]
    omega

theorem arity_mismatch_fails_without_call_witness :
    Bind Demo.env (Registry.init Unit _) "add" (.func Demo.add2) =
        some { err := none, registry := Demo.boundAlone Demo.add2,
               bound := some ("add", 0) } ∧
    webviewBindingGoCallback Demo.env (Demo.boundAlone Demo.add2) "7"
        (some [Demo.Json.num 1]) 0 0 =
      some ({ id := "7", status := -1, result := "\"function arguments mismatch\"" }, 0) ∧
    webviewBindingGoCallback Demo.env (Demo.boundAlone Demo.add2) "8"
        (some [Demo.Json.num 1, Demo.Json.num 2, Demo.Json.num 3]) 0 0 =
      some ({ id := "8", status := -1, result := "\"function arguments mismatch\"" }, 0) := by
  obtain ⟨t, hb, h1, -, -⟩ := arity_mismatch_fails_without_call Demo.env
    (Registry.init Unit _) "add" Demo.add2
    { err := none, registry := Demo.boundAlone Demo.add2, bound := some ("add", 0) }
    "7" (some [Demo.Json.num 1]) [Demo.Json.num 1] 0 rfl rfl rfl
  obtain ⟨t', hb', -, -, h2⟩ := arity_mismatch_fails_without_call Demo.env
    (Registry.init Unit _) "add" Demo.add2
    { err := none, registry := Demo.boundAlone Demo.add2, bound := some ("add", 0) }
    "8" (some [Demo.Json.num 1, Demo.Json.num 2, Demo.Json.num 3])
    [Demo.Json.num 1, Demo.Json.num 2, Demo.Json.num 3] 0 rfl rfl rfl
  simp only [Option.some.injEq, Prod.mk.injEq, true_and] at hb hb'
  subst hb; subst hb'
  exact ⟨rfl, (h1 (Or.inr ⟨rfl, by decide⟩)).2, h2 rfl (Or.inr rfl)⟩

/-! ### The decode loop -/

theorem argType_fixed {Req Raw Ty Val : Type} (env : JsonEnv Req Raw Ty Val) (ft : FuncType Ty)
    (i : Nat) (h : ft.isVariadic = false ∨ i + 1 < ft.ins.length) :
    argType env ft i = ft.ins.get? i := by
  have hc : (ft.isVariadic && decide ((i : Int) ≥ ft.NumIn - 1)) = false := by
    rcases h with h | h
    · simp [h]
    · have : ¬ ((ft.ins.length : Int) - 1 ≤ (i : Int)) := by omega
      simp [FuncType.NumIn, this]
  unfold argType
  rw [hc]
  simp [FuncType.In]

theorem argType_trailing {Req Raw Ty Val : Type} (env : JsonEnv Req Raw Ty Val)
    (ft : FuncType Ty) (fixedTys : List Ty) (lastTy : Ty) (i : Nat)
    (hv : ft.isVariadic = true) (hins : ft.ins = fixedTys ++ [lastTy])
    (hi : fixedTys.length ≤ i) :
    argType env ft i = env.elem lastTy := by
  have hn : ft.NumIn - 1 = (fixedTys.length : Int) := by
    simp [FuncType.NumIn, hins]
  have hc : (ft.isVariadic && decide ((i : Int) ≥ ft.NumIn - 1)) = true := by
    rw [hn]; simp [hv]; omega
  have hin : ft.In (ft.NumIn - 1) = some lastTy := by
    rw [hn]
    simp [FuncType.In, hins]
  unfold argType
  rw [hc, hin]
  simp

theorem decodeArgs_zip {Req Raw Ty Val : Type} (env : JsonEnv Req Raw Ty Val)
    (ft : FuncType Ty) (raw : List Raw) (tys : List Ty) (args : List Val) (i : Nat)
    (hty : ∀ j, j < raw.length → argType env ft (i + j) = tys.get? j)
    (hlen : raw.length = tys.length)
    (h : List.Forall₂ (fun (p : Raw × Ty) a => env.unmarshal p.1 p.2 = .ok a)
      (raw.zip tys) args) :
    decodeArgs env ft i raw = some (.ok args) := by
  induction raw generalizing tys args i with
  | nil =>
    cases tys with
    | nil =>
      simp only [List.zip_nil_right, List.forall₂_nil_left_iff] at h
      subst h; rfl
    | cons t ts => simp at hlen
  | cons x rest ih =>
    cases tys with
    | nil => simp at hlen
    | cons t ts =>
      simp only [List.zip_cons_cons] at h
      cases h with
      | cons hx hrest =>
        rename_i a args'
        have h0 : argType env ft i = some t := by
          simpa using hty 0 (by simp)
        have hrec := ih ts args' (i + 1)
          (fun j hj => by
            have := hty (j + 1) (by simpa using hj)
            simpa [Nat.add_assoc, Nat.add_comm 1 j] using this)
          (by simpa using hlen) hrest
        simp only at hx
        simp [decodeArgs, h0, hx, hrec]

theorem decodeArgs_const {Req Raw Ty Val : Type} (env : JsonEnv Req Raw Ty Val)
    (ft : FuncType Ty) (raw : List Raw) (ty : Ty) (args : List Val) (i : Nat)
    (hty : ∀ j, j < raw.length → argType env ft (i + j) = some ty)
    (h : List.Forall₂ (fun x a => env.unmarshal x ty = .ok a) raw args) :
    decodeArgs env ft i raw = some (.ok args) := by
  induction h generalizing i with
  | nil => rfl
  | cons hx _ ih =>
    rename_i x a rest args'
    have h0 : argType env ft i = some ty := by simpa using hty 0 (by simp)
    have hrec := ih (i + 1) (fun j hj => by
      have := hty (j + 1) (by simpa using hj)
      simpa [Nat.add_assoc, Nat.add_comm 1 j] using this)
    simp [decodeArgs, h0, hx, hrec]

theorem decodeArgs_append {Req Raw Ty Val : Type} (env : JsonEnv Req Raw Ty Val)
    (ft : FuncType Ty) (r1 r2 : List Raw) (a1 a2 : List Val) (i : Nat)
    (h1 : decodeArgs env ft i r1 = some (.ok a1))
    (h2 : decodeArgs env ft (i + r1.length) r2 = some (.ok a2)) :
    decodeArgs env ft i (r1 ++ r2) = some (.ok (a1 ++ a2)) := by
  induction r1 generalizing i a1 with
  | nil =>
    simp only [decodeArgs, Option.some.injEq, Except.ok.injEq] at h1
    subst h1
    simpa using h2
  | cons x rest ih =>
    simp only [decodeArgs] at h1
    cases hty : argType env ft i with
    | none => simp [hty] at h1
    | some ty =>
      simp only [hty] at h1
      cases hx : env.unmarshal x ty with
      | error e => simp [hx] at h1
      | ok a =>
        simp only [hx] at h1
        cases hr : decodeArgs env ft (i + 1) rest with
        | none => simp [hr] at h1
        | some res =>
          cases res with
          | error e => simp [hr] at h1
          | ok args =>
            simp only [hr, Option.some.injEq, Except.ok.injEq] at h1
            subst h1
            have h2' : decodeArgs env ft (i + 1 + rest.length) r2 = some (.ok a2) := by
              have e : i + 1 + rest.length = i + (x :: rest).length := by
                simp only [List.length_cons]; omega
              rw [e]; exact h2
            have := ih args (i + 1) hr h2'
            simp [decodeArgs, hty, hx, this]

theorem decodeArgs_fails_at {Req Raw Ty Val : Type} (env : JsonEnv Req Raw Ty Val)
    (ft : FuncType Ty) (pre : List Raw) (bad : Raw) (post : List Raw) (vals : List Val)
    (ty : Ty) (e : String) (i : Nat)
    (hpre : decodeArgs env ft i pre = some (.ok vals))
    (hty : argType env ft (i + pre.length) = some ty)
    (hbad : env.unmarshal bad ty = .error e) :
    decodeArgs env ft i (pre ++ bad :: post) = some (.error e) := by
  induction pre generalizing i vals with
  | nil =>
    simp only [List.length_nil, Nat.add_zero] at hty
    simp [decodeArgs, hty, hbad]
  | cons x rest ih =>
    simp only [decodeArgs] at hpre
    cases hxt : argType env ft i with
    | none => simp [hxt] at hpre
    | some tx =>
      simp only [hxt] at hpre
      cases hx : env.unmarshal x tx with
      | error e' => simp [hx] at hpre
      | ok a =>
        simp only [hx] at hpre
        cases hr : decodeArgs env ft (i + 1) rest with
        | none => simp [hr] at hpre
        | some res =>
          cases res with
          | error e' => simp [hr] at hpre
          | ok args =>
            have hty' : argType env ft (i + 1 + rest.length) = some ty := by
              have e1 : i + 1 + rest.length = i + (x :: rest).length := by
                simp only [List.length_cons]; omega
              rw [e1]; exact hty
            have := ih args (i + 1) hr hty'
            simp [decodeArgs, hxt, hx, this]

theorem decodeArgs_of_forall {Req Raw Ty Val : Type} (env : JsonEnv Req Raw Ty Val)
    (ft : FuncType Ty) (raw : List Raw) (i : Nat)
    (h : ∀ j (hj : j < raw.length), ∃ ty a, argType env ft (i + j) = some ty ∧
      env.unmarshal (raw.get ⟨j, hj⟩) ty = .ok a) :
    ∃ vals, decodeArgs env ft i raw = some (.ok vals) := by
  induction raw generalizing i with
  | nil => exact ⟨[], rfl⟩
  | cons x rest ih =>
    obtain ⟨ty, a, hty, hx⟩ := h 0 (by simp)
    simp only [Nat.add_zero, List.get_eq_getElem, List.getElem_cons_zero] at hty hx
    obtain ⟨vals, hv⟩ := ih (i + 1) (fun j hj => by
      obtain ⟨ty', a', h1, h2⟩ := h (j + 1) (by simpa using hj)
      refine ⟨ty', a', ?_, ?_⟩
      · simpa [Nat.add_assoc, Nat.add_comm 1 j] using h1
      · simpa using h2)
    exact ⟨a :: vals, by simp [decodeArgs, hty, hx, hv]⟩

theorem callback_of_decodeAndCall {W Req Raw Ty Val σ : Type} (env : JsonEnv Req Raw Ty Val)
    (r : Registry W (BindingFn Req Val σ)) (v : HostFunc Ty Val σ) (id : String) (req : Req)
    (raw : List Raw) (t : Nat) (s : σ) (ret : Option Val × Option String) (s' : σ)
    (hentry : GoMap.funcAt r.bindings t = some (binding env v))
    (hreq : env.unmarshalArray req = .ok raw)
    (harity : arityMismatch v.type raw.length = false)
    (hrun : decodeAndCall env v raw s = some (ret, s')) :
    webviewBindingGoCallback env r id req t s = some (envelopeOf env id ret, s') :=
  callback_of_entry env r _ id req t s ret s' hentry
    (by rw [binding_of_arity_ok env v id req raw s hreq harity, hrun])

theorem callback_of_call {W Req Raw Ty Val σ : Type} (env : JsonEnv Req Raw Ty Val)
    (r : Registry W (BindingFn Req Val σ)) (v : HostFunc Ty Val σ) (id : String) (req : Req)
    (raw : List Raw) (args : List Val) (t : Nat) (s : σ)
    (hentry : GoMap.funcAt r.bindings t = some (binding env v))
    (hreq : env.unmarshalArray req = .ok raw)
    (harity : arityMismatch v.type raw.length = false)
    (hdec : decodeArgs env v.type 0 raw = some (.ok args)) :
    webviewBindingGoCallback env r id req t s =
      some (envelopeOf env id (bindingResult env (v.Call args s).1), (v.Call args s).2) :=
  callback_of_decodeAndCall env r v id req raw t s _ _ hentry hreq harity
    (by simp [decodeAndCall, hdec])

/-! ### A present error (C5) -/

/-- C5: a bound function is called, the call reaches the invocation, and the
function returns two values `x` and `e` where the second type is error-shaped
and `e` is present (non-nil).  The envelope reported to the engine is then a
failure (status -1) whose payload is `jsString` of the text of `e`, that is
the JSON encoding of that text whenever `json.Marshal` gives one; `x` occurs
nowhere in the envelope. -/
theorem present_error_gives_failure_envelope {W Req Raw Ty Val σ : Type}
    (env : JsonEnv Req Raw Ty Val) (r : Registry W (BindingFn Req Val σ)) (name : String)
    (v : HostFunc Ty Val σ) (out : BindOutcome W (BindingFn Req Val σ)) (id : String)
    (req : Req) (raw : List Raw) (args : List Val) (s : σ) (t0 t1 : Ty) (x : Option Val)
    (e : Val)
    (hbind : Bind env r name (.func v) = some out) (hok : out.err = none)
    (hreq : env.unmarshalArray req = .ok raw)
    (harity : arityMismatch v.type raw.length = false)
    (hdec : decodeArgs env v.type 0 raw = some (.ok args))
    (hret : (v.Call args s).1 = [{ ty := t0, iface := x }, { ty := t1, iface := some e }])
    (herr : env.implementsError t1 = true) :
    ∃ t, out.bound = some (name, t) ∧
      webviewBindingGoCallback env out.registry id req t s =
        some ({ id := id, status := -1, result := jsString env (env.errorText e) },
          (v.Call args s).2) ∧
      ∀ b, env.marshal (some (env.ofString (env.errorText e))) = .ok b →
        jsString env (env.errorText e) = b := by
  obtain ⟨t, hb, hentry⟩ := Bind_ok env r name v out hbind hok
  refine ⟨t, hb, ?_, ?_⟩
  · rw [callback_of_call env out.registry v id req raw args t s hentry hreq harity hdec, hret]
    simp [bindingResult, herr, envelopeOf]
  · intro b hb'
    simp [jsString, hb']

theorem present_error_gives_failure_envelope_witness :
    Bind Demo.env (Registry.init Unit _) "load" (.func Demo.failing) =
        some { err := none, registry := Demo.boundAlone Demo.failing,
               bound := some ("load", 0) } ∧
    webviewBindingGoCallback Demo.env (Demo.boundAlone Demo.failing) "3"
        (some [Demo.Json.str "a.txt"]) 0 0 =
      some ({ id := "3", status := -1, result := "\"boom\"" }, 1) := by
  obtain ⟨t, hb, h, -⟩ := present_error_gives_failure_envelope Demo.env
    (Registry.init Unit _) "load" Demo.failing
    { err := none, registry := Demo.boundAlone Demo.failing, bound := some ("load", 0) }
    "3" (some [Demo.Json.str "a.txt"]) [Demo.Json.str "a.txt"] [Demo.GoVal.str "a.txt"] 0
    Demo.GoType.string Demo.GoType.error (some (Demo.GoVal.str "partial"))
    (Demo.GoVal.err "boom") rfl rfl rfl rfl rfl rfl rfl
  simp only [Option.some.injEq, Prod.mk.injEq, true_and] at hb
  subst hb
  exact ⟨rfl, h⟩

/-! ### A successful call (C6) -/

/-- C7, as stated, fails: `func(a, b int) int` is called once with a string as
argument 0 and once with a string as argument 1; both calls yield the same
failure envelope, whose text names no argument, so the envelope does not tell
which argument failed to decode. -/
theorem decode_error_names_no_argument :
    webviewBindingGoCallback Demo.env (Demo.boundAlone Demo.add2) "1"
        (some [Demo.Json.str "x", Demo.Json.num 1]) 0 0 =
      some ({ id := "1", status := -1,
              result := "\"json: cannot unmarshal string into Go value of type int\"" }, 0) ∧
    webviewBindingGoCallback Demo.env (Demo.boundAlone Demo.add2) "1"
        (some [Demo.Json.num 1, Demo.Json.str "x"]) 0 0 =
      some ({ id := "1", status := -1,
              result := "\"json: cannot unmarshal string into Go value of type int\"" }, 0) :=
  ⟨rfl, rfl⟩

/-- C7 (amended): a bound function is called and the call passes the arity
check.  If the arguments before argument i decode into their types and
decoding argument i into its declared parameter type (the variadic element
type for a trailing argument) fails with error `e`, the envelope is a failure
(status -1) whose payload is `jsString` of the text of `e`, the decode error
as `json.Unmarshal` returned it, and the host state is untouched: the function
is not invoked. -/
theorem decode_failure_aborts_call {W Req Raw Ty Val σ : Type}
    (env : JsonEnv Req Raw Ty Val) (r : Registry W (BindingFn Req Val σ)) (name : String)
    (v : HostFunc Ty Val σ) (out : BindOutcome W (BindingFn Req Val σ)) (id : String)
    (req : Req) (pre : List Raw) (bad : Raw) (post : List Raw) (ty : Ty) (e : String) (s : σ)
    (hbind : Bind env r name (.func v) = some out) (hok : out.err = none)
    (hreq : env.unmarshalArray req = .ok (pre ++ bad :: post))
    (harity : arityMismatch v.type (pre ++ bad :: post).length = false)
    (hpre : ∀ j (hj : j < pre.length), ∃ tj a, argType env v.type j = some tj ∧
      env.unmarshal (pre.get ⟨j, hj⟩) tj = .ok a)
    (hty : argType env v.type pre.length = some ty)
    (hbad : env.unmarshal bad ty = .error e) :
    ∃ t, out.bound = some (name, t) ∧
      binding env v id req s = some ((none, some e), s) ∧
      webviewBindingGoCallback env out.registry id req t s =
        some ({ id := id, status := -1, result := jsString env e }, s) := by
  obtain ⟨t, hb, hentry⟩ := Bind_ok env r name v out hbind hok
  obtain ⟨vals, hvals⟩ := decodeArgs_of_forall env v.type pre 0
    (fun j hj => by simpa using hpre j hj)
  have hd := decodeArgs_fails_at env v.type pre bad post vals ty e 0 hvals
    (by simpa using hty) hbad
  have hrun : decodeAndCall env v (pre ++ bad :: post) s = some ((none, some e), s) := by
    simp [decodeAndCall, hd]
  refine ⟨t, hb, ?_, ?_⟩
  · rw [binding_of_arity_ok env v id req _ s hreq harity, hrun]
  · rw [callback_of_decodeAndCall env out.registry v id req _ t s _ _ hentry hreq harity hrun,
      envelopeOf_error]

theorem decode_failure_aborts_call_witness :
    Bind Demo.env (Registry.init Unit _) "add" (.func Demo.add2) =
        some { err := none, registry := Demo.boundAlone Demo.add2,
               bound := some ("add", 0) } ∧
    binding Demo.env Demo.add2 "1" (some [Demo.Json.num 1, Demo.Json.str "x"]) 0 =
      some ((none, some "json: cannot unmarshal string into Go value of type int"), 0) ∧
    webviewBindingGoCallback Demo.env (Demo.boundAlone Demo.add2) "1"
        (some [Demo.Json.num 1, Demo.Json.str "x"]) 0 0 =
      some ({ id := "1", status := -1,
              result := "\"json: cannot unmarshal string into Go value of type int\"" }, 0) := by
  obtain ⟨t, hb, h1, h2⟩ := decode_failure_aborts_call Demo.env
    (Registry.init Unit _) "add" Demo.add2
    { err := none, registry := Demo.boundAlone Demo.add2, bound := some ("add", 0) }
    "1" (some [Demo.Json.num 1, Demo.Json.str "x"]) [Demo.Json.num 1] (Demo.Json.str "x") []
    Demo.GoType.int "json: cannot unmarshal string into Go value of type int" 0
    rfl rfl rfl rfl
    (fun j hj => by
      have hj0 : j = 0 := by simpa using hj
      subst hj0
      exact ⟨Demo.GoType.int, Demo.GoVal.int 1, rfl, rfl⟩)
    rfl rfl
  simp only [Option.some.injEq, Prod.mk.injEq, true_and] at hb
  subst hb
  exact ⟨rfl, h1, h2⟩

/-! ### Variadic functions (C9) -/

/-- C9: a bound variadic function has K fixed parameters of types `fixedTys`
and a last parameter of slice type `lastTy` with element type `elemTy`
(numIn = K+1).  A call with K+M arguments, M ≥ 0, where the first K decode into
`fixedTys` in order (giving `fixedVals`) and each of the M trailing ones
decodes into `elemTy` (giving `varVals`), passes the arity check, the decode
loop yields `fixedVals ++ varVals`, and the function body runs with
`fixedVals` as fixed arguments and exactly `varVals`, in order, in the
variadic slot (empty when M = 0); the envelope is the one of its results. -/
theorem variadic_call_fills_slot {W Req Raw Ty Val σ : Type}
    (env : JsonEnv Req Raw Ty Val) (r : Registry W (BindingFn Req Val σ)) (name : String)
    (v : HostFunc Ty Val σ) (out : BindOutcome W (BindingFn Req Val σ)) (id : String)
    (req : Req) (s : σ) (fixedTys : List Ty) (lastTy elemTy : Ty)
    (rawFixed rawVar : List Raw) (fixedVals varVals : List Val)
    (hbind : Bind env r name (.func v) = some out) (hok : out.err = none)
    (hv : v.type.isVariadic = true) (hins : v.type.ins = fixedTys ++ [lastTy])
    (helem : env.elem lastTy = some elemTy)
    (hreq : env.unmarshalArray req = .ok (rawFixed ++ rawVar))
    (hlen : rawFixed.length = fixedTys.length)
    (hfixed : List.Forall₂ (fun (p : Raw × Ty) a => env.unmarshal p.1 p.2 = .ok a)
      (rawFixed.zip fixedTys) fixedVals)
    (hvar : List.Forall₂ (fun x a => env.unmarshal x elemTy = .ok a) rawVar varVals) :
    arityMismatch v.type (rawFixed ++ rawVar).length = false ∧
    decodeArgs env v.type 0 (rawFixed ++ rawVar) = some (.ok (fixedVals ++ varVals)) ∧
    v.Call (fixedVals ++ varVals) s = v.body fixedVals varVals s ∧
    ∃ t, out.bound = some (name, t) ∧
      webviewBindingGoCallback env out.registry id req t s =
        some (envelopeOf env id (bindingResult env (v.body fixedVals varVals s).1),
          (v.body fixedVals varVals s).2) := by
  obtain ⟨t, hb, hentry⟩ := Bind_ok env r name v out hbind hok
  have harity : arityMismatch v.type (rawFixed ++ rawVar).length = false := by
    simp [arityMismatch, hv, FuncType.NumIn, hins, hlen]
  have h1 : decodeArgs env v.type 0 rawFixed = some (.ok fixedVals) :=
    decodeArgs_zip env v.type rawFixed fixedTys fixedVals 0
      (fun j hj => by
        have hj' : j + 1 < v.type.ins.length := by simp [hins]; omega
        have := argType_fixed env v.type j (Or.inr hj')
        simp only [Nat.zero_add]
        rw [this, hins]
        simp only [List.get?_eq_getElem?]
        rw [List.getElem?_append_left (by omega)])
      hlen hfixed
  have h2 : decodeArgs env v.type (0 + rawFixed.length) rawVar = some (.ok varVals) :=
    decodeArgs_const env v.type rawVar elemTy varVals (0 + rawFixed.length)
      (fun j _ => by
        rw [argType_trailing env v.type fixedTys lastTy _ hv hins (by omega), helem])
      hvar
  have hd := decodeArgs_append env v.type rawFixed rawVar fixedVals varVals 0 h1 h2
  have hflen : fixedVals.length = fixedTys.length := by
    have := hfixed.length_eq
    simp only [List.length_zip] at this
    omega
  have hcall : v.Call (fixedVals ++ varVals) s = v.body fixedVals varVals s := by
    simp [HostFunc.Call, hv, hins, ← hflen]
  refine ⟨harity, hd, hcall, t, hb, ?_⟩
  rw [callback_of_call env out.registry v id req _ _ t s hentry hreq harity hd, hcall]

theorem variadic_call_fills_slot_witness :
    Bind Demo.env (Registry.init Unit _) "collect" (.func Demo.collect) =
        some { err := none, registry := Demo.boundAlone Demo.collect,
               bound := some ("collect", 0) } ∧
    Demo.collect.Call [Demo.GoVal.str "a", Demo.GoVal.int 4, Demo.GoVal.int 5] 0 =
      Demo.collect.body [Demo.GoVal.str "a"] [Demo.GoVal.int 4, Demo.GoVal.int 5] 0 ∧
    webviewBindingGoCallback Demo.env (Demo.boundAlone Demo.collect) "2"
        (some [Demo.Json.str "a", Demo.Json.num 4, Demo.Json.num 5]) 0 0 =
      some ({ id := "2", status := 0, result := "[4,5]" }, 1) := by
  obtain ⟨-, -, hc, t, hb, h⟩ := variadic_call_fills_slot Demo.env
    (Registry.init Unit _) "collect" Demo.collect
    { err := none, registry := Demo.boundAlone Demo.collect, bound := some ("collect", 0) }
    "2" (some [Demo.Json.str "a", Demo.Json.num 4, Demo.Json.num 5]) 0
    [Demo.GoType.string] Demo.GoType.sliceInt Demo.GoType.int
    [Demo.Json.str "a"] [Demo.Json.num 4, Demo.Json.num 5]
    [Demo.GoVal.str "a"] [Demo.GoVal.int 4, Demo.GoVal.int 5]
    rfl rfl rfl rfl rfl rfl rfl
    (List.Forall₂.cons rfl List.Forall₂.nil)
    (List.Forall₂.cons rfl (List.Forall₂.cons rfl List.Forall₂.nil))
  simp only [Option.some.injEq, Prod.mk.injEq, true_and] at hb
  subst hb
  exact ⟨rfl, hc, h⟩

/-! ### Bind-time rejection (C2) -/

/-- C2, as stated, fails: `func() (int, int)`, whose second return value is not
error-shaped, is bound without error, an entry is added under token 0, and a
later call invokes the function (the invocation count goes from 0 to 1) before
the envelope reports the failure. -/
theorem two_values_without_error_is_bound :
    Bind Demo.env (Registry.init Unit _) "pair" (.func Demo.pair) =
        some { err := none, registry := Demo.boundAlone Demo.pair,
               bound := some ("pair", 0) } ∧
    webviewBindingGoCallback Demo.env (Demo.boundAlone Demo.pair) "1" (some []) 0 0 =
      some ({ id := "1", status := -1,
              result := "\"second return value must be an error\"" }, 1) :=
  ⟨rfl, rfl⟩

/-- C2 (amended): Bind fails synchronously for every function declared to
return three or more values: it returns an error, the registry is unchanged
and the engine is not told of any binding.  For a function declared to return
two values whose second is not error-shaped, Bind succeeds and adds an entry
(when the cursor is a `uintptr` and `bindings` is not full); every later call
that reaches the invocation runs the function and then yields a failure
envelope with the text "second return value must be an error". -/
theorem bind_rejects_only_three_or_more {W Req Raw Ty Val σ : Type}
    (env : JsonEnv Req Raw Ty Val) (r : Registry W (BindingFn Req Val σ)) (name : String)
    (v : HostFunc Ty Val σ) :
    (3 ≤ v.type.outs.length →
      Bind env r name (.func v) =
        some { err := some "function may only return a value or a value+error",
               registry := r, bound := none }) ∧
    (∀ t0 t1, v.type.outs = [t0, t1] → env.implementsError t1 = false →
      r.index < uintptrSize → r.bindings.length < uintptrSize →
      ∃ r' t, Bind env r name (.func v) = some { err := none, registry := r', bound := some (name, t) } ∧
        GoMap.funcAt r'.bindings t = some (binding env v) ∧
        ∀ (id : String) (req : Req) (raw : List Raw) (args : List Val) (s : σ),
          env.unmarshalArray req = .ok raw →
          arityMismatch v.type raw.length = false →
          decodeArgs env v.type 0 raw = some (.ok args) →
          (v.Call args s).1.map RVal.ty = v.type.outs →
          webviewBindingGoCallback env r' id req t s =
            some ({ id := id, status := -1,
                    result := jsString env "second return value must be an error" },
              (v.Call args s).2)) := by
  constructor
  · intro h3
    have : v.type.NumOut > 2 := by simp only [FuncType.NumOut]; omega
    simp [Bind, this]
  · intro t0 t1 houts herr hi hlen
    obtain ⟨r', t, ha⟩ := bindAlloc_returns r (binding env v) hi hlen
    have hn : ¬ v.type.NumOut > 2 := by simp [FuncType.NumOut, houts]
    have hentry := (bindAlloc_spec r r' _ t ha).2.1
    refine ⟨r', t, by simp [Bind, hn, ha], hentry, ?_⟩
    intro id req raw args s hreq harity hdec htys
    rw [callback_of_call env r' v id req raw args t s hentry hreq harity hdec]
    rw [houts] at htys
    have hshape : ∃ x0 x1, (v.Call args s).1 = [{ ty := t0, iface := x0 }, { ty := t1, iface := x1 }] := by
      match hres : (v.Call args s).1, htys with
      | [a, b], h =>
        simp only [List.map_cons, List.map_nil, List.cons.injEq, and_true] at h
        obtain ⟨ha, hb⟩ := h
        exact ⟨a.iface, b.iface, by cases a; cases b; simp_all⟩
    obtain ⟨x0, x1, hres⟩ := hshape
    rw [hres]
    simp [bindingResult, herr, envelopeOf]

theorem bind_rejects_only_three_or_more_witness :
    Bind Demo.env (Registry.init Unit _) "triple" (.func Demo.triple) =
        some { err := some "function may only return a value or a value+error",
               registry := Registry.init Unit _, bound := none } ∧
    webviewBindingGoCallback Demo.env (Demo.boundAlone Demo.pair) "5" (some []) 0 4 =
      some ({ id := "5", status := -1,
              result := "\"second return value must be an error\"" }, 5) := by
  refine ⟨(bind_rejects_only_three_or_more Demo.env (Registry.init Unit _) "triple"
    Demo.triple).1 (by decide), ?_⟩
  obtain ⟨r', t, hB, -, hcall⟩ := (bind_rejects_only_three_or_more Demo.env
    (Registry.init Unit _) "pair" Demo.pair).2 Demo.GoType.int Demo.GoType.int rfl rfl
    (by decide) (by decide)
  have hB' : Bind Demo.env (Registry.init Unit _) "pair" (.func Demo.pair) =
      some { err := none, registry := Demo.boundAlone Demo.pair,
             bound := some ("pair", 0) } := rfl
  rw [hB'] at hB
  simp only [Option.some.injEq, BindOutcome.mk.injEq, Prod.mk.injEq, true_and] at hB
  obtain ⟨hr, ht⟩ := hB
  subst hr; subst ht
  exact hcall "5" (some []) [] [] 4 rfl rfl rfl rfl

/-! ### Event bus (C8) -/

theorem registerAll_snoc (regs : List (String × Option Handler)) (reg : String × Option Handler) :
    registerAll (regs ++ [reg]) = AddMessageHandler (registerAll regs) reg.1 reg.2 := by
  simp [registerAll, List.foldl_append]

theorem specLastRegistered_snoc (regs : List (String × Option Handler))
    (reg : String × Option Handler) (eventName : String) :
    specLastRegistered (regs ++ [reg]) eventName =
      if reg.1 = eventName then some reg.2 else specLastRegistered regs eventName := by
  by_cases h : reg.1 = eventName
  · simp [specLastRegistered, List.find?_cons, h]
  · simp [specLastRegistered, List.find?_cons, h]

theorem funcAt_registerAll (regs : List (String × Option Handler)) (eventName : String) :
    GoMap.funcAt (registerAll regs) eventName =
      match specLastRegistered regs eventName with
      | some f => f
      | none => none := by
  induction regs using List.reverseRecOn with
  | nil => rfl
  | append_singleton regs reg ih =>
    rw [registerAll_snoc, specLastRegistered_snoc]
    by_cases h : reg.1 = eventName
    · subst h
      simp [AddMessageHandler, GoMap.funcAt_assign_self]
    · have h' : eventName ≠ reg.1 := fun e => h e.symm
      simp only [AddMessageHandler, h, if_false]
      rw [GoMap.funcAt_assign_ne _ _ h', ih]

/-- C8: for every sequence of `AddMessageHandler` registrations and every
(eventName, eventData), the function bound as `_SendEvent` returns
`h(eventName, eventData)` where `h` is the handler most recently registered
for `eventName`, and the empty string when no handler (or a nil handler) is
registered for it; registrations for other names do not change the result. -/
theorem sendEvent_returns_last_registered (regs : List (String × Option Handler))
    (eventName eventData : String) :
    (sendEvent (registerAll regs) eventName eventData =
      match specLastRegistered regs eventName with
      | some (some h) => h eventName eventData
      | _ => "") ∧
    sendEvent (registerAll (regs.filter fun reg => decide (reg.1 = eventName)))
        eventName eventData =
      sendEvent (registerAll regs) eventName eventData := by
  have key : ∀ l : List (String × Option Handler),
      sendEvent (registerAll l) eventName eventData =
        match specLastRegistered l eventName with
        | some (some h) => h eventName eventData
        | _ => "" := by
    intro l
    unfold sendEvent
    rw [funcAt_registerAll]
    cases hl : specLastRegistered l eventName with
    | none => rfl
    | some f => cases f <;> rfl
  refine ⟨key regs, ?_⟩
  rw [key, key]
  have : specLastRegistered (regs.filter fun reg => decide (reg.1 = eventName)) eventName =
      specLastRegistered regs eventName := by
    simp [specLastRegistered, ← List.filter_reverse]
  rw [this]

/-! ### The script of `SendMessage` (C10) -/

theorem hexVal_hexByte : ∀ d, d < 16 → hexVal (hexByte d) = some d := by
  decide

theorem seqLen_two {b0 : Nat} (h : seqLen b0 = 2) : 194 ≤ b0 ∧ b0 ≤ 223 := by
  unfold seqLen at h
  split at h
  · assumption
  · split at h
    · omega
    · split at h <;> omega

theorem seqLen_three {b0 : Nat} (h : seqLen b0 = 3) : 224 ≤ b0 ∧ b0 ≤ 239 := by
  unfold seqLen at h
  split at h
  · omega
  · split at h
    · assumption
    · split at h <;> omega

theorem seqLen_four {b0 : Nat} (h : seqLen b0 = 4) : 240 ≤ b0 ∧ b0 ≤ 244 := by
  unfold seqLen at h
  split at h
  · omega
  · split at h
    · omega
    · split at h
      · assumption
      · omega

/-- The possible results of `decodeRune` on a string starting with a non-ASCII
byte. -/
theorem decodeRune_cases (b0 : Nat) (rest : GoString) (h : ¬ b0 < 128) :
    decodeRune (b0 :: rest) = (runeError, 1) ∨
    (seqLen b0 = 2 ∧ ∃ b1 r, rest = b1 :: r ∧ secondLo b0 ≤ b1 ∧ b1 ≤ secondHi b0 ∧
      decodeRune (b0 :: rest) = (b0 % 32 * 64 + b1 % 64, 2)) ∨
    (seqLen b0 = 3 ∧ ∃ b1 b2 r, rest = b1 :: b2 :: r ∧ secondLo b0 ≤ b1 ∧ b1 ≤ secondHi b0 ∧
      128 ≤ b2 ∧ b2 ≤ 191 ∧
      decodeRune (b0 :: rest) = (b0 % 16 * 4096 + b1 % 64 * 64 + b2 % 64, 3)) ∨
    (seqLen b0 = 4 ∧ ∃ b1 b2 b3 r, rest = b1 :: b2 :: b3 :: r ∧ secondLo b0 ≤ b1 ∧
      b1 ≤ secondHi b0 ∧ 128 ≤ b2 ∧ b2 ≤ 191 ∧ 128 ≤ b3 ∧ b3 ≤ 191 ∧
      decodeRune (b0 :: rest) =
        (b0 % 8 * 262144 + b1 % 64 * 4096 + b2 % 64 * 64 + b3 % 64, 4)) := by
  by_cases h2 : seqLen b0 = 2
  · cases rest with
    | nil => left; simp [decodeRune, h, h2]
    | cons b1 r =>
      by_cases hr : secondLo b0 ≤ b1 ∧ b1 ≤ secondHi b0
      · right; left
        exact ⟨h2, b1, r, rfl, hr.1, hr.2, by simp [decodeRune, h, h2, hr]⟩
      · left; simp [decodeRune, h, h2, hr]
  by_cases h3 : seqLen b0 = 3
  · match rest with
    | [] => left; simp [decodeRune, h, h3]
    | [_] => left; simp [decodeRune, h, h3]
    | b1 :: b2 :: r =>
      by_cases hr : secondLo b0 ≤ b1 ∧ b1 ≤ secondHi b0 ∧ 128 ≤ b2 ∧ b2 ≤ 191
      · right; right; left
        exact ⟨h3, b1, b2, r, rfl, hr.1, hr.2.1, hr.2.2.1, hr.2.2.2,
          by simp [decodeRune, h, h3, hr]⟩
      · left; simp [decodeRune, h, h3, hr]
  by_cases h4 : seqLen b0 = 4
  · match rest with
    | [] => left; simp [decodeRune, h, h4]
    | [_] => left; simp [decodeRune, h, h4]
    | [_, _] => left; simp [decodeRune, h, h4]
    | b1 :: b2 :: b3 :: r =>
      by_cases hr : secondLo b0 ≤ b1 ∧ b1 ≤ secondHi b0 ∧ 128 ≤ b2 ∧ b2 ≤ 191 ∧
          128 ≤ b3 ∧ b3 ≤ 191
      · right; right; right
        exact ⟨h4, b1, b2, b3, r, rfl, hr.1, hr.2.1, hr.2.2.1, hr.2.2.2.1, hr.2.2.2.2.1,
          hr.2.2.2.2.2, by simp [decodeRune, h, h4, hr]⟩
      · left; simp [decodeRune, h, h4, hr]
  left
  simp [decodeRune, h, h2, h3, h4]

theorem readBody_escapeAscii (b : Nat) (t : GoString) (hb : b < 128) :
    readBody .plain (escapeAscii b ++ t) = (readBody .plain t).map (b :: ·) := by
  unfold escapeAscii
  by_cases hsafe : 32 ≤ b ∧ b ≠ 34 ∧ b ≠ 92 ∧ b ≠ 60 ∧ b ≠ 62 ∧ b ≠ 38
  · have h32 : ¬ b < 32 := by omega
    simp [hsafe, readBody, h32, hb]
  · simp only [hsafe, if_false]
    by_cases hq : b = 92 ∨ b = 34
    · rcases hq with rfl | rfl <;> simp [readBody, simpleEscape]
    · simp only [hq, if_false]
      by_cases h10 : b = 10
      · subst h10; simp [readBody, simpleEscape]
      by_cases h13 : b = 13
      · subst h13; simp [readBody, simpleEscape]
      by_cases h9 : b = 9
      · subst h9; simp [readBody, simpleEscape]
      simp only [h10, h13, h9, if_false]
      have hhi := hexVal_hexByte (b / 16) (by omega)
      have hlo := hexVal_hexByte (b % 16) (by omega)
      have h0 : hexVal 48 = some 0 := by decide
      have hval : b / 16 * 16 + b % 16 = b := by omega
      have hns : ¬ (55296 ≤ b ∧ b ≤ 57343) := by omega
      simp [readBody, h0, hhi, hlo, hval, hns, encodeRune, hb]

theorem readBody_replacement (t : GoString) :
    readBody .plain ([92, 117, 102, 102, 102, 100] ++ t) =
      (readBody .plain t).map ([239, 191, 189] ++ ·) := by
  have hf : hexVal 102 = some 15 := by decide
  have hd : hexVal 100 = some 13 := by decide
  simp [readBody, hf, hd, encodeRune]

theorem readBody_separator (c : Nat) (t : GoString) (hc : c = 8232 ∨ c = 8233) :
    readBody .plain ([92, 117, 50, 48, 50, hexByte (c % 16)] ++ t) =
      (readBody .plain t).map ([226, 128, 128 + c % 64] ++ ·) := by
  have h2 : hexVal 50 = some 2 := by decide
  have h0 : hexVal 48 = some 0 := by decide
  rcases hc with rfl | rfl
  · have h8 : hexVal (hexByte (8232 % 16)) = some 8 := by decide
    simp [readBody, h2, h0, h8, encodeRune]
  · have h9 : hexVal (hexByte (8233 % 16)) = some 9 := by decide
    simp [readBody, h2, h0, h9, encodeRune]

/-- A valid multi-byte sequence is read back as it stands. -/
theorem readBody_copy (b0 : Nat) (rest t : GoString) (h : ¬ b0 < 128)
    (hv : ¬ ((decodeRune (b0 :: rest)).1 = runeError ∧ (decodeRune (b0 :: rest)).2 = 1)) :
    readBody .plain ((b0 :: rest).take (decodeRune (b0 :: rest)).2 ++ t) =
      (readBody .plain t).map ((b0 :: rest).take (decodeRune (b0 :: rest)).2 ++ ·) := by
  have h34 : ¬ b0 = 34 := by omega
  have h92 : ¬ b0 = 92 := by omega
  have h32 : ¬ b0 < 32 := by omega
  rcases decodeRune_cases b0 rest h with he | ⟨h2, b1, r, rfl, hlo, hhi, hd⟩ |
      ⟨h3, b1, b2, r, rfl, hlo, hhi, hl2, hh2, hd⟩ |
      ⟨h4, b1, b2, b3, r, rfl, hlo, hhi, hl2, hh2, hl3, hh3, hd⟩
  · exact absurd (by simp [he]) hv
  · rw [hd]
    simp [readBody, h34, h92, h32, h, h2, hlo, hhi, Function.comp_def]
  · rw [hd]
    simp [readBody, h34, h92, h32, h, h3, hlo, hhi, hl2, hh2, Function.comp_def]
  · rw [hd]
    simp [readBody, h34, h92, h32, h, h4, hlo, hhi, hl2, hh2, hl3, hh3, Function.comp_def]

/-- The bytes of U+2028 and U+2029 are the only sequences decoding to them. -/
theorem take_of_separator (b0 : Nat) (rest : GoString) (h : ¬ b0 < 128)
    (hc : (decodeRune (b0 :: rest)).1 = 8232 ∨ (decodeRune (b0 :: rest)).1 = 8233) :
    (b0 :: rest).take (decodeRune (b0 :: rest)).2 =
      [226, 128, 128 + (decodeRune (b0 :: rest)).1 % 64] := by
  rcases decodeRune_cases b0 rest h with he | ⟨h2, b1, r, rfl, hlo, hhi, hd⟩ |
      ⟨h3, b1, b2, r, rfl, hlo, hhi, hl2, hh2, hd⟩ |
      ⟨h4, b1, b2, b3, r, rfl, hlo, hhi, hl2, hh2, hl3, hh3, hd⟩
  · rw [he] at hc
    simp [runeError] at hc
  · have hb := seqLen_two h2
    rw [hd] at hc
    dsimp only at hc
    exfalso
    omega
  · have hb := seqLen_three h3
    have hlo' : 128 ≤ b1 := by
      unfold secondLo at hlo
      split at hlo
      · omega
      · split at hlo <;> omega
    have hhi' : b1 ≤ 191 := by
      unfold secondHi at hhi
      split at hhi
      · omega
      · split at hhi <;> omega
    rw [hd] at hc ⊢
    dsimp only at hc ⊢
    simp only [List.take_succ_cons, List.take_zero, List.cons.injEq, and_true]
    omega
  · have hb := seqLen_four h4
    rw [hd] at hc
    dsimp only at hc
    exfalso
    simp only [secondLo, secondHi] at hlo hhi
    split_ifs at hlo hhi <;> omega

theorem decodeRune_width_pos (b0 : Nat) (rest : GoString) :
    1 ≤ (decodeRune (b0 :: rest)).2 := by
  by_cases h : b0 < 128
  · simp [decodeRune, h]
  · rcases decodeRune_cases b0 rest h with he | ⟨-, b1, r, -, -, -, hd⟩ |
        ⟨-, b1, b2, r, -, -, -, -, -, hd⟩ | ⟨-, b1, b2, b3, r, -, -, -, -, -, -, -, hd⟩ <;>
      simp [*]

theorem length_drop_width (b0 : Nat) (rest : GoString) (fuel : Nat)
    (hl : (b0 :: rest).length ≤ fuel + 1) :
    ((b0 :: rest).drop (decodeRune (b0 :: rest)).2).length ≤ fuel := by
  have := decodeRune_width_pos b0 rest
  simp only [List.length_drop]
  omega

theorem readBody_appendStringLoop (fuel : Nat) (l t : GoString) (hl : l.length ≤ fuel) :
    readBody .plain (appendStringLoop fuel l ++ t) =
      (readBody .plain t).map (replaceInvalidLoop fuel l ++ ·) := by
  induction fuel generalizing l with
  | zero => simp [appendStringLoop, replaceInvalidLoop]
  | succ fuel ih =>
    cases l with
    | nil => simp [appendStringLoop, replaceInvalidLoop]
    | cons b rest =>
      have hrest : rest.length ≤ fuel := by simpa using hl
      by_cases hb : b < 128
      · simp only [appendStringLoop, replaceInvalidLoop, hb, if_true, List.append_assoc]
        rw [readBody_escapeAscii b _ hb, ih rest hrest]
        simp [Option.map_map, Function.comp_def]
      · by_cases he : (decodeRune (b :: rest)).1 = runeError ∧ (decodeRune (b :: rest)).2 = 1
        · simp only [appendStringLoop, replaceInvalidLoop, hb, he, and_self, if_true, if_false,
            List.append_assoc]
          rw [readBody_replacement, ih rest hrest]
          simp [Option.map_map, Function.comp_def]
        · have hdrop := length_drop_width b rest fuel hl
          by_cases hs : (decodeRune (b :: rest)).1 = 8232 ∨ (decodeRune (b :: rest)).1 = 8233
          · simp only [appendStringLoop, replaceInvalidLoop, hb, he, hs, if_true, if_false,
              List.append_assoc]
            rw [readBody_separator _ _ hs, ih _ hdrop, take_of_separator b rest hb hs]
            simp [Option.map_map, Function.comp_def]
          · simp only [appendStringLoop, replaceInvalidLoop, hb, he, hs, if_false,
              List.append_assoc]
            rw [readBody_copy b rest _ hb he, ih _ hdrop]
            simp [Option.map_map, Function.comp_def]

theorem replaceInvalidLoop_of_valid (fuel : Nat) (l : GoString) (hl : l.length ≤ fuel)
    (hv : validStringLoop fuel l = true) : replaceInvalidLoop fuel l = l := by
  induction fuel generalizing l with
  | zero =>
    have : l = [] := List.length_eq_zero.mp (by omega)
    subst this
    simp [replaceInvalidLoop]
  | succ fuel ih =>
    cases l with
    | nil => simp [replaceInvalidLoop]
    | cons b rest =>
      have hrest : rest.length ≤ fuel := by simpa using hl
      by_cases hb : b < 128
      · simp only [validStringLoop, hb, if_true] at hv
        simp [replaceInvalidLoop, hb, ih rest hrest hv]
      · by_cases he : (decodeRune (b :: rest)).1 = runeError ∧ (decodeRune (b :: rest)).2 = 1
        · simp [validStringLoop, hb, he] at hv
        · simp only [validStringLoop, hb, he, if_false] at hv
          simp only [replaceInvalidLoop, hb, he, if_false]
          rw [ih _ (length_drop_width b rest fuel hl) hv]
          exact List.take_append_drop _ _

theorem readJsonStringLiteral_appendString (s : GoString) :
    readJsonStringLiteral (appendString s) = some (replaceInvalid s) := by
  simp only [appendString, readJsonStringLiteral, if_true]
  rw [readBody_appendStringLoop s.length s [34] (Nat.le_refl _)]
  simp [readBody, replaceInvalid]

/-- C10, as stated, fails: for the event data consisting of the single byte
0xFF, which is not valid UTF-8, the piece `SendMessage` inserts is the literal
of U+FFFD; it decodes to the three bytes of U+FFFD, not back to the input. -/
theorem invalid_utf8_is_not_read_back :
    SendMessage (fun v => .ok (appendString v)) [112] [255] =
      asciiBytes
          "\n\twindow.webViewEventListeners.forEach(eventListener => \x7b\n\t\teventListener("
        ++ [34, 112, 34] ++ asciiBytes ", " ++ [34, 92, 117, 102, 102, 102, 100, 34]
        ++ asciiBytes ");\n\t\x7d)\n\t" ∧
    readJsonStringLiteral [34, 92, 117, 102, 102, 102, 100, 34] = some [239, 191, 189] ∧
    readJsonStringLiteral [34, 92, 117, 102, 102, 102, 100, 34] ≠ some [255] := by
  decide

/-- C10 (amended): for every eventName and eventData, whatever their bytes, the
script `SendMessage` hands to `Eval` is the fixed listener-iteration text with
the JSON string encoding of eventName and of eventData as the two call
arguments; each of the two pieces reads as exactly one JSON string literal (no
byte of the inputs ends the literal early or leaves text after it), standing
for the input with every byte that is not part of valid UTF-8 replaced by
U+FFFD; so each piece decodes back to the original input when the input is
valid UTF-8. -/
theorem SendMessage_script_quotes_arguments (eventName eventData : GoString) :
    SendMessage (fun v => .ok (appendString v)) eventName eventData =
      asciiBytes
          "\n\twindow.webViewEventListeners.forEach(eventListener => \x7b\n\t\teventListener("
        ++ appendString eventName ++ asciiBytes ", " ++ appendString eventData
        ++ asciiBytes ");\n\t\x7d)\n\t" ∧
    readJsonStringLiteral (appendString eventName) = some (replaceInvalid eventName) ∧
    readJsonStringLiteral (appendString eventData) = some (replaceInvalid eventData) ∧
    (validString eventName = true →
      readJsonStringLiteral (appendString eventName) = some eventName) ∧
    (validString eventData = true →
      readJsonStringLiteral (appendString eventData) = some eventData) := by
  refine ⟨rfl, readJsonStringLiteral_appendString _, readJsonStringLiteral_appendString _,
    ?_, ?_⟩
  · intro hv
    rw [readJsonStringLiteral_appendString, replaceInvalid,
      replaceInvalidLoop_of_valid _ _ (Nat.le_refl _) hv]
  · intro hv
    rw [readJsonStringLiteral_appendString, replaceInvalid,
      replaceInvalidLoop_of_valid _ _ (Nat.le_refl _) hv]

theorem SendMessage_script_quotes_arguments_witness :
    validString (asciiBytes "ping") = true ∧
    validString [123, 34, 110, 34, 58, 34, 195, 169, 92, 10, 34, 125] = true ∧
    appendString [123, 34, 110, 34, 58, 34, 195, 169, 92, 10, 34, 125] =
      [34, 123, 92, 34, 110, 92, 34, 58, 92, 34, 195, 169, 92, 92, 92, 110, 92, 34, 125, 34] ∧
    readJsonStringLiteral (appendString (asciiBytes "ping")) = some (asciiBytes "ping") ∧
    readJsonStringLiteral
        (appendString [123, 34, 110, 34, 58, 34, 195, 169, 92, 10, 34, 125]) =
      some [123, 34, 110, 34, 58, 34, 195, 169, 92, 10, 34, 125] :=
  ⟨by decide, by decide, by decide,
    (SendMessage_script_quotes_arguments (asciiBytes "ping")
      [123, 34, 110, 34, 58, 34, 195, 169, 92, 10, 34, 125]).2.2.2.1 (by decide),
    (SendMessage_script_quotes_arguments (asciiBytes "ping")
      [123, 34, 110, 34, 58, 34, 195, 169, 92, 10, 34, 125]).2.2.2.2 (by decide)⟩

end Webview
